import Mathlib

/-! # camaro: the template-driven transform of `camaro.cpp`

A shallow embedding of `src/packages/camaro/src/cpp/camaro.cpp`:
`start_with`, `get_return_type`, `query_boolean`, `query_string`,
`query_number`, `query_array`, `query_object`, `walk` and `transform`.

* A `std::string` is a list of `char`s (`string`); text written in the source
  as a literal appears here as `"...".toList`.
* The libraries the file is linked against are capabilities passed in as a
  parameter (`Capabilities`): pugixml (`load_string`, the four XPath
  evaluations) and `nlohmann::json::parse`.
* A C++ exception is a `Failure`; every call of the XPath evaluator is recorded
  in the `calls` of an `Outcome`, in program order.
* An `emscripten::val` object is the JavaScript object behind it: its own
  properties in the order the object lists them, integer-like keys first, and
  the key `__proto__` reaching the prototype instead of a property.
-/

set_option autoImplicit false

namespace Camaro

/-! ## Strings -/

/-- The type `std::string` (`using string = std::string;`): a sequence of chars. -/
abbrev string : Type := List Char

/-- The loop of `std::string::rfind(str, pos)`: try position `pos`, then
`pos - 1`, down to `0`; `none` is `npos`. -/
def rfind_from (s str : string) : Nat → Option Nat
  | 0 => if str.isPrefixOf s then some 0 else none
  | p + 1 => if str.isPrefixOf (s.drop (p + 1)) then some (p + 1) else rfind_from s str p

/-- The call `s.rfind(str, pos)`: the last position `<= pos` at which `str`
occurs in `s`; `none` is `npos`. -/
def rfind (s str : string) (pos : Nat) : Option Nat :=
  if str.length ≤ s.length then rfind_from s str (min (s.length - str.length) pos) else none

/-- The loop of `std::string::find(str, pos)`: `s` is the text from position
`pos` on; the first position at which `str` occurs; `none` is `npos`. -/
def find_from (str : string) : string → Nat → Option Nat
  | [], pos => if str.isPrefixOf [] then some pos else none
  | c :: s, pos => if str.isPrefixOf (c :: s) then some pos else find_from str s (pos + 1)

/-- The call `s.find(str)`: the first position at which `str` occurs in `s`. -/
def find (s str : string) : Option Nat :=
  find_from str s 0

/-! ## Failures and outcomes -/

/-- The exceptions the code can raise. -/
inductive Failure where
  /-- `std::out_of_range`, from `string::at` or `string::substr`. -/
  | out_of_range
  /-- `json::type_error`, from `get<string>()` on a value that is no string. -/
  | type_error
  /-- `json::invalid_iterator`, from `it.key()` on an iterator of a non-object. -/
  | invalid_iterator
  /-- `json::parse_error`, from `json::parse`. -/
  | parse_error
  /-- `pugi::xpath_exception`, from building or evaluating an `xpath_query`. -/
  | xpath_exception
  deriving DecidableEq, Repr

/-- The call `s.substr(pos, n)`; it throws when `pos > s.size()`. -/
def substr (s : string) (pos n : Nat) : Except Failure string :=
  if pos > s.length then .error .out_of_range else .ok ((s.drop pos).take n)

/-! ## The return-type classifier -/

/-- The `enum ReturnType { T_NUMBER, T_STRING, T_BOOLEAN }`. -/
inductive ReturnType where
  | T_NUMBER
  | T_STRING
  | T_BOOLEAN
  deriving DecidableEq, Repr

/-- The function `start_with(to_check, prefix)`:
`to_check.rfind(prefix, 0) == 0`. -/
def start_with (to_check pfx : string) : Bool :=
  rfind to_check pfx 0 == some 0

/-- The function `get_return_type(path)`: `path.at(0)` throws on the empty
string; otherwise a switch on the first char, each case testing its own
prefixes, with `T_STRING` kept when no test succeeds. -/
def get_return_type (path : string) : Except Failure ReturnType :=
  match path with
  | [] => .error .out_of_range
  | ch :: _ =>
    let t := ReturnType.T_STRING
    .ok (
      if ch = 'b' then
        (if start_with path "boolean(".toList then .T_BOOLEAN else t)
      else if ch = 'c' then
        (if start_with path "count(".toList || start_with path "ceiling(".toList
          then .T_NUMBER else t)
      else if ch = 'f' then
        (if start_with path "floor(".toList then .T_NUMBER else t)
      else if ch = 'n' then
        (if start_with path "number(".toList then .T_NUMBER else t)
      else if ch = 'r' then
        (if start_with path "round(".toList then .T_NUMBER else t)
      else if ch = 's' then
        (if start_with path "sum(".toList then .T_NUMBER else t)
      else .T_STRING)

/-- The prefix table of the specification, read top to bottom: `boolean(` is
Boolean, the six numeric function names are Number, anything else is String. -/
def classify_by_table (s : string) : ReturnType :=
  if "boolean(".toList <+: s then .T_BOOLEAN
  else if "count(".toList <+: s ∨ "ceiling(".toList <+: s ∨ "floor(".toList <+: s
      ∨ "number(".toList <+: s ∨ "round(".toList <+: s ∨ "sum(".toList <+: s then .T_NUMBER
  else .T_STRING

/-! ## Templates, output values, capabilities -/

/-- A parsed template: the `json` value built by `nlohmann::json::parse`, its
objects keeping their members in insertion order (`fifo_map`). The numeric
payload is never read by this code. -/
inductive Json where
  | null
  | boolean (b : Bool)
  | number (x : Rat)
  | str (s : string)
  | array (elems : List Json)
  | object (members : List (string × Json))

/-- The call `j.get<string>()`: the text of a string, `type_error` on any other
value. -/
def Json.get_string : Json → Except Failure string
  | .str s => .ok s
  | _ => .error .type_error

/-- The lookup behind `j[key]` on an object: the value of the first member
named `key`. -/
def members_find (key : string) : List (string × Json) → Option Json
  | [] => none
  | (k, v) :: rest => if k = key then some v else members_find key rest

/-- The call `j[key]`: on an object the value stored under `key`, a null when
the key is new; on a null the null just created; `type_error` otherwise. -/
def Json.at_key (j : Json) (key : string) : Except Failure Json :=
  match j with
  | .object members => .ok ((members_find key members).getD .null)
  | .null => .ok .null
  | _ => .error .type_error

/-- An `emscripten::val` as this code builds it: strings, numbers and booleans
from the evaluator, `val::array(arr)`, and the JavaScript objects that start
as `val::object()`. An object is given by its own properties, in the order the
object lists them: integer-like keys first, in ascending order, then the other
keys in the order they were created. `object` has the prototype it was made
with; `object_with_prototype` is an object whose prototype has been replaced
through the key `__proto__`. `Num` is the type `double`. -/
inductive val (Num : Type) where
  | str (s : string)
  | number (d : Num)
  | boolean (b : Bool)
  | array (elems : List (val Num))
  | object (props : List (string × val Num))
  | object_with_prototype (proto : val Num) (props : List (string × val Num))

/-- The key `__proto__`, which on a JavaScript object is an accessor inherited
from `Object.prototype`, not a place to store a value. -/
def proto_key : string := "__proto__".toList

/-- The number a string of decimal digits writes. -/
def decimal_value (digits : string) : Nat :=
  digits.foldl (fun acc c => 10 * acc + (c.toNat - '0'.toNat)) 0

/-- The array index a key denotes in JavaScript, if any: a canonical decimal
numeral (`0`, or digits with no leading zero) below `2^32 - 1`. -/
def array_index (key : string) : Option Nat :=
  if key ≠ [] ∧ key.all Char.isDigit = true ∧ (key = ['0'] ∨ key.head? ≠ some '0')
      ∧ decimal_value key < 4294967295 then
    some (decimal_value key)
  else none

/-- Whether a new property `key` is listed before the existing property
`other`: an integer-like key comes before every key that is not integer-like
and before every larger integer-like key; any other key comes last. -/
def listed_before (key other : string) : Bool :=
  match array_index key, array_index other with
  | some i, some j => decide (i < j)
  | some _, none => true
  | none, _ => false

/-- The value of property `key` in a property list. -/
def get_property {Num : Type} (key : string) : List (string × val Num) → Option (val Num)
  | [] => none
  | (k, v) :: rest => if k = key then some v else get_property key rest

/-- Assignment to an existing property: it keeps its place and takes the new
value. -/
def replace_property {Num : Type} (key : string) (value : val Num) :
    List (string × val Num) → List (string × val Num)
  | [] => []
  | (k, v) :: rest =>
    if k = key then (k, value) :: rest else (k, v) :: replace_property key value rest

/-- Creation of a new property: it goes in front of the first property it is
listed before, at the end when there is none. -/
def insert_property {Num : Type} (key : string) (value : val Num) :
    List (string × val Num) → List (string × val Num)
  | [] => [(key, value)]
  | (k, v) :: rest =>
    if listed_before key k then (key, value) :: (k, v) :: rest
    else (k, v) :: insert_property key value rest

/-- Assignment `handle[key] = value` of an ordinary key in the own properties
of a JavaScript object: an existing property is overwritten in place, a new
one is created at the place where the object lists it. -/
def set_property {Num : Type} (key : string) (value : val Num)
    (props : List (string × val Num)) : List (string × val Num) :=
  if (get_property key props).isSome then replace_property key value props
  else insert_property key value props

/-- A JavaScript value of type Object (an object or an array), as opposed to
a primitive string, number or boolean. -/
def val.is_js_object {Num : Type} : val Num → Bool
  | .array _ => true
  | .object _ => true
  | .object_with_prototype _ _ => true
  | _ => false

/-- The call `output.set(key, value)`, that is `handle[key] = value` in
JavaScript. On an object, the key `__proto__` reaches the setter inherited
from `Object.prototype`: an object or array value becomes the new prototype, a
primitive value is ignored, and no property is created; every other key is an
ordinary assignment. In this code `output` is always an object; any other
value is left as it is. -/
def val.set {Num : Type} (output : val Num) (key : string) (value : val Num) : val Num :=
  match output with
  | .object props =>
    if key = proto_key then
      (if value.is_js_object then .object_with_prototype value props else output)
    else .object (set_property key value props)
  | .object_with_prototype proto props =>
    if key = proto_key then
      (if value.is_js_object then .object_with_prototype value props else output)
    else .object_with_prototype proto (set_property key value props)
  | other => other

/-- Whether a value is an object that started as `val::object()`. -/
def val.is_object {Num : Type} : val Num → Bool
  | .object _ => true
  | .object_with_prototype _ _ => true
  | _ => false

/-- The own properties of an object, in the order the object lists them; none
for any other value. -/
def val.props {Num : Type} : val Num → List (string × val Num)
  | .object props => props
  | .object_with_prototype _ props => props
  | _ => []

/-- The entry an output object holds at `key`: the value of its own property
`key`, `none` when it has no such property. -/
def val.get {Num : Type} (output : val Num) (key : string) : Option (val Num) :=
  get_property key output.props

/-- The libraries behind the code. `Node` is a place in a parsed document (an
`xml_document` or an `xpath_node`), `Num` is `double`.
* `load_string xml`: `doc.load_string(xml.c_str())`, the document when the
  parse result is truthy.
* `parse text`: `json::parse(text)`, `none` when it throws `parse_error`.
* `evaluate_string path ctx`: `xquery query(path.c_str());
  query.evaluate_string(ctx)`, `none` when an `xpath_exception` is thrown; and
  likewise for `evaluate_number`, `evaluate_boolean`, `evaluate_node_set`. -/
structure Capabilities (Node Num : Type) where
  load_string : string → Option Node
  parse : string → Option Json
  evaluate_string : string → Node → Option string
  evaluate_number : string → Node → Option Num
  evaluate_boolean : string → Node → Option Bool
  evaluate_node_set : string → Node → Option (List Node)

/-- One call of the XPath evaluator: the mode, the path and the context. -/
inductive Call (Node : Type) where
  | evaluate_string (path : string) (ctx : Node)
  | evaluate_number (path : string) (ctx : Node)
  | evaluate_boolean (path : string) (ctx : Node)
  | evaluate_node_set (path : string) (ctx : Node)
  deriving DecidableEq, Repr

/-- What running a piece of the code gives: the evaluator calls it made, in
order, and either its value or the exception that ended it. -/
structure Outcome (Node α : Type) where
  calls : List (Call Node)
  result : Except Failure α

namespace Outcome

variable {Node α β : Type}

/-- A value, with no evaluator call. -/
def ret (a : α) : Outcome Node α := ⟨[], .ok a⟩

/-- A throw, with no evaluator call. -/
def raise (e : Failure) : Outcome Node α := ⟨[], .error e⟩

/-- A step that calls no evaluator. -/
def lift (r : Except Failure α) : Outcome Node α := ⟨[], r⟩

/-- Sequencing: `f` runs after `x` unless `x` threw; the calls add up. -/
def andThen (x : Outcome Node α) (f : α → Outcome Node β) : Outcome Node β :=
  match x.result with
  | .error e => ⟨x.calls, .error e⟩
  | .ok a => ⟨x.calls ++ (f a).calls, (f a).result⟩

instance : Monad (Outcome Node) where
  pure := ret
  bind := andThen

end Outcome

variable {Node Num : Type}

/-- The statements `xquery query(path.c_str()); query.evaluate_string(xnode)`. -/
def xpath_string (E : Capabilities Node Num) (path : string) (xnode : Node) :
    Outcome Node string :=
  ⟨[.evaluate_string path xnode],
    match E.evaluate_string path xnode with
    | some r => .ok r
    | none => .error .xpath_exception⟩

/-- The statements `xquery query(path.c_str()); query.evaluate_number(xnode)`. -/
def xpath_number (E : Capabilities Node Num) (path : string) (xnode : Node) :
    Outcome Node Num :=
  ⟨[.evaluate_number path xnode],
    match E.evaluate_number path xnode with
    | some r => .ok r
    | none => .error .xpath_exception⟩

/-- The statements `xquery query(path.c_str()); query.evaluate_boolean(xnode)`. -/
def xpath_boolean (E : Capabilities Node Num) (path : string) (xnode : Node) :
    Outcome Node Bool :=
  ⟨[.evaluate_boolean path xnode],
    match E.evaluate_boolean path xnode with
    | some r => .ok r
    | none => .error .xpath_exception⟩

/-- The statements `xquery q(base_path.c_str()); q.evaluate_node_set(doc)`. -/
def xpath_node_set (E : Capabilities Node Num) (path : string) (doc : Node) :
    Outcome Node (List Node) :=
  ⟨[.evaluate_node_set path doc],
    match E.evaluate_node_set path doc with
    | some r => .ok r
    | none => .error .xpath_exception⟩

/-! ## The queries -/

/-- The function `query_boolean(xnode, j)`. -/
def query_boolean (E : Capabilities Node Num) (xnode : Node) (j : Json) : Outcome Node Bool := do
  let path ← Outcome.lift j.get_string
  xpath_boolean E path xnode

/-- The function `query_string(xnode, j)`: when the path holds a `#` anywhere
(`path.find("#") != npos`) the result is `path.substr(1, path.size())` and the
evaluator is not called; otherwise the path is evaluated as a string. -/
def query_string (E : Capabilities Node Num) (xnode : Node) (j : Json) :
    Outcome Node string := do
  let path ← Outcome.lift j.get_string
  if (find path "#".toList).isSome then
    Outcome.lift (substr path 1 path.length)
  else
    xpath_string E path xnode

/-- The function `query_number(xnode, j)`. -/
def query_number (E : Capabilities Node Num) (xnode : Node) (j : Json) : Outcome Node Num := do
  let path ← Outcome.lift j.get_string
  xpath_number E path xnode

/-- The loop `for (size_t i = 0; i < nodes.size(); ++i) { n = nodes[i]; body }`
with the vector `arr` as its state. -/
def for_each_node {α : Type} (body : Node → α → Outcome Node α) :
    List Node → α → Outcome Node α
  | [], arr => pure arr
  | n :: rest, arr => do
    let arr ← body n arr
    for_each_node body rest arr

/-! ## The template walker

`walk`, `query_array` and `query_object` call one another. The recursion is on
the template: `query_array` is given the elements of its array `node` (both of
its callers test `is_array()` first) and the two loops over the members of an
object are functions of their own, with the object under construction as
state. -/

mutual

/-- The function `walk(doc, n, output, key)`; the result is `output` after the
call. -/
def walk (E : Capabilities Node Num) (doc : Node) :
    Json → val Num → string → Outcome Node (val Num)
  | .array elems, output, key => do
    let r ← query_array E doc elems
    pure (output.set key r)
  | .object members, output, key => do
    -- the body of `query_object(doc, n)`
    let r ← query_object_loop E doc members (.object [])
    pure (output.set key r)
  | .str path, output, key =>
    if path.isEmpty then
      pure (output.set key (.str []))
    else do
      let t ← Outcome.lift (get_return_type path)
      let output ← (if t = .T_NUMBER then do
          let r ← query_number E doc (.str path)
          pure (output.set key (.number r))
        else pure output)
      let output ← (if t = .T_STRING then do
          let r ← query_string E doc (.str path)
          pure (output.set key (.str r))
        else pure output)
      let output ← (if t = .T_BOOLEAN then do
          let r ← query_boolean E doc (.str path)
          pure (output.set key (.boolean r))
        else pure output)
      pure output
  | _, output, _ => pure output

/-- The function `query_array(doc, node)`, for the elements of `node`.
`node.empty()` returns at once; `node[0].get<string>()` is the base path;
`node[1]` is read once per matched node, and on a one-element array it is the
null that `operator[]` appends. -/
def query_array (E : Capabilities Node Num) (doc : Node) :
    List Json → Outcome Node (val Num)
  | [] => pure (.array [])
  | first :: rest => do
    let base_path ← Outcome.lift first.get_string
    let nodes ← xpath_node_set E base_path doc
    let arr ← for_each_node (fun n arr =>
      match rest with
      | [] => pure arr
      | inner :: _ =>
        match inner with
        | .object members => do
          let obj ← query_array_object E n members (.object [])
          pure (arr ++ [obj])
        | .str path => do
          let t ← Outcome.lift (get_return_type path)
          let arr ← (if t = .T_STRING then do
              let r ← query_string E n inner
              pure (arr ++ [.str r])
            else pure arr)
          let arr ← (if t = .T_NUMBER then do
              let r ← query_number E n inner
              pure (arr ++ [.number r])
            else pure arr)
          let arr ← (if t = .T_BOOLEAN then do
              let r ← query_boolean E n inner
              pure (arr ++ [.boolean r])
            else pure arr)
          pure arr
        | _ => pure arr) nodes []
    pure (.array arr)

/-- The loop of `query_array` over an object `inner`:
`for (it = inner.begin(); it != inner.end(); ++it) walk(n, it.value(), obj, it.key());`
the result is `obj` after the loop. -/
def query_array_object (E : Capabilities Node Num) (n : Node) :
    List (string × Json) → val Num → Outcome Node (val Num)
  | [], obj => pure obj
  | (key, value) :: rest, obj => do
    let obj ← walk E n value obj key
    query_array_object E n rest obj

/-- The loop of `query_object`:
`for (it = node.begin(); it != node.end(); ++it) { key = it.key(); walk(doc, *it, output, key); }`
the result is `output` after the loop. -/
def query_object_loop (E : Capabilities Node Num) (doc : Node) :
    List (string × Json) → val Num → Outcome Node (val Num)
  | [], output => pure output
  | (key, value) :: rest, output => do
    let output ← walk E doc value output key
    query_object_loop E doc rest output

end

/-- The function `query_object(doc, node)`, for the members of the object
`node` (its caller tests `is_object()` first): the loop run on a fresh
`val::object()`. -/
def query_object (E : Capabilities Node Num) (doc : Node) (members : List (string × Json)) :
    Outcome Node (val Num) :=
  query_object_loop E doc members (.object [])

/-! ## The entry point -/

/-- The loop of `transform` over the object `j`:
`for (it = j.begin(); it != j.end(); ++it) { key = it.key(); node = j[key]; walk(doc, node, output, key); }`
the list is the members still to visit, the result is `output` after the loop. -/
def transform_loop (E : Capabilities Node Num) (doc : Node) (j : Json) :
    List (string × Json) → val Num → Outcome Node (val Num)
  | [], output => pure output
  | (key, _) :: rest, output => do
    let node ← Outcome.lift (j.at_key key)
    let output ← walk E doc node output key
    transform_loop E doc j rest output

/-- The function `transform(xml, json_template)`. The template is parsed only
when the document loaded. An array goes to `query_array`; otherwise the value
is iterated: an object member by member, a null not at all, and on any other
value the first `it.key()` throws. -/
def transform (E : Capabilities Node Num) (xml json_template : string) :
    Outcome Node (val Num) :=
  let output : val Num := .object []
  match E.load_string xml with
  | some doc => do
    let j ← Outcome.lift (match E.parse json_template with
      | some j => .ok j
      | none => .error .parse_error)
    match j with
    | .array elems => query_array E doc elems
    | .object members => transform_loop E doc j members output
    | .null => pure output
    | _ => Outcome.raise .invalid_iterator
  | none => pure output

/-! ## The per-match rule of the specification -/

/-- The specification's rule for an array form, "one output per match, in the
order the evaluator returns": run `f` on each node in turn and collect the
values; a failure at one node ends the run. -/
def run_each {β : Type} (f : Node → Outcome Node β) : List Node → Outcome Node (List β)
  | [] => Outcome.ret []
  | n :: rest =>
    (f n).andThen fun b => (run_each f rest).andThen fun bs => Outcome.ret (b :: bs)

/-! ## A sample environment

A table standing for the libraries on the few texts the examples below use: one
document with two `item` elements (node `0` is the document, `1` and `2` the
items), three templates, and the paths they mention. Every other text is
taken as unparsable, every other path as matching nothing. -/

/-- The document `<r><item id="1"/><item id="2"/></r>`. -/
def sample_xml : string := "<r><item id=\"1\"/><item id=\"2\"/></r>".toList

/-- The template text `{"k":"#v"}`. -/
def literal_template_text : string := "\x7b\"k\":\"#v\"\x7d".toList

/-- The template text `{"items":["//item",{"name":"name()","id":"@id"}]}`. -/
def items_template_text : string :=
  "\x7b\"items\":[\"//item\",\x7b\"name\":\"name()\",\"id\":\"@id\"\x7d]\x7d".toList

/-- The members of the object `{"name":"name()","id":"@id"}`. -/
def item_members : List (string × Json) :=
  [("name".toList, .str "name()".toList), ("id".toList, .str "@id".toList)]

/-- The sample environment. -/
def sample : Capabilities Nat Int where
  load_string xml := if xml = sample_xml then some 0 else none
  parse text :=
    if text = "[]".toList then some (.array [])
    else if text = literal_template_text then
      some (.object [("k".toList, .str "#v".toList)])
    else if text = items_template_text then
      some (.object [("items".toList, .array [.str "//item".toList, .object item_members])])
    else none
  evaluate_string path ctx :=
    if path = "@id".toList then
      (if ctx = 1 then some "1".toList else if ctx = 2 then some "2".toList else some [])
    else if path = "name()".toList then
      (if ctx = 1 ∨ ctx = 2 then some "item".toList else some [])
    else some []
  evaluate_number _ _ := some 0
  evaluate_boolean _ _ := some false
  evaluate_node_set path _ := if path = "//item".toList then some [1, 2] else some []

/-- A second environment: the sample one, which also parses the template text
`["//item","@id"]`. -/
def ids_template_text : string := "[\"//item\",\"@id\"]".toList

/-- The sample environment with the template `["//item","@id"]` added. -/
def sample_ids : Capabilities Nat Int :=
  { sample with
    parse := fun text =>
      if text = ids_template_text then some (.array [.str "//item".toList, .str "@id".toList])
      else sample.parse text }

/-! ## The scalar a non-empty leaf gives

Both `walk` and the loop of `query_array` run the same three tests on
`get_return_type(path)` and differ only in where the value goes. -/

/-- The value computed for a non-empty leaf `path` at context `n`: the result
of `query_number`, `query_string` or `query_boolean`, as `get_return_type`
selects, wrapped in a `val`. -/
def leaf_value (E : Capabilities Node Num) (n : Node) (path : string) :
    Outcome Node (val Num) :=
  (Outcome.lift (get_return_type path)).andThen fun t =>
    match t with
    | .T_NUMBER => (query_number E n (.str path)).andThen fun r => Outcome.ret (.number r)
    | .T_STRING => (query_string E n (.str path)).andThen fun r => Outcome.ret (.str r)
    | .T_BOOLEAN => (query_boolean E n (.str path)).andThen fun r => Outcome.ret (.boolean r)

/-! ## Shapes

The templates the specification supports, and the shape an output has when it
mirrors a template. -/

mutual

/-- A supported template: an object with distinct keys whose members are
supported, an array, or a string leaf. -/
def supported : Json → Bool
  | .object members =>
    decide ((members.map Prod.fst).Nodup) && supported_members members
  | .array _ => true
  | .str _ => true
  | _ => false

/-- Every member of the list is a supported template. -/
def supported_members : List (string × Json) → Bool
  | [] => true
  | (_, t) :: rest => supported t && supported_members rest

end

mutual

/-- The output `v` mirrors the template: an object with the same keys in the
same order and a mirroring value under each, an array for an array, a string,
number or boolean for a leaf. -/
def shaped {Num : Type} : Json → val Num → Bool
  | .object members, .object props => shaped_members members props
  | .array _, .array _ => true
  | .str _, .str _ => true
  | .str _, .number _ => true
  | .str _, .boolean _ => true
  | _, _ => false

/-- The properties mirror the members, one for one and in order. -/
def shaped_members {Num : Type} : List (string × Json) → List (string × val Num) → Bool
  | [], [] => true
  | (k, t) :: members, (k', v) :: props =>
    decide (k = k') && shaped t v && shaped_members members props
  | _, _ => false

end

mutual

/-- No key of the template, at any depth reached through objects, is
`__proto__` or integer-like: every key is stored as an ordinary property and
listed where it was created. -/
def ordinary_keys : Json → Bool
  | .object members => ordinary_keys_members members
  | _ => true

/-- The keys of the members, and of the objects below them, are ordinary. -/
def ordinary_keys_members : List (string × Json) → Bool
  | [] => true
  | (k, t) :: rest =>
    decide (k ≠ proto_key) && (array_index k).isNone && ordinary_keys t
      && ordinary_keys_members rest

end

/-! ## Templates with special keys -/

/-- The template text `{"__proto__":"#v"}`. -/
def proto_template_text : string := "\x7b\"__proto__\":\"#v\"\x7d".toList

/-- The sample environment with the template `{"__proto__":"#v"}` added. -/
def sample_proto : Capabilities Nat Int :=
  { sample with
    parse := fun text =>
      if text = proto_template_text then some (.object [(proto_key, .str "#v".toList)])
      else sample.parse text }

theorem start_with_eq_isPrefixOf (s p : string) : start_with s p = p.isPrefixOf s := by
  unfold start_with rfind
  by_cases h : p.length ≤ s.length
  · simp only [h, if_true, Nat.min_zero, Nat.zero_le, min_eq_right, rfind_from]
    cases hp : p.isPrefixOf s <;> simp
  · simp only [h, if_false]
    have : p.isPrefixOf s = false := by
      cases hp : p.isPrefixOf s
      · rfl
      · exact absurd (List.IsPrefix.length_le (List.isPrefixOf_iff_prefix.mp hp)) h
    rw [this]; rfl

theorem start_with_iff (s p : string) : start_with s p = true ↔ p <+: s := by
  rw [start_with_eq_isPrefixOf]; exact List.isPrefixOf_iff_prefix

theorem lit_boolean : "boolean(".toList = ['b','o','o','l','e','a','n','('] := rfl
theorem lit_count : "count(".toList = ['c','o','u','n','t','('] := rfl
theorem lit_ceiling : "ceiling(".toList = ['c','e','i','l','i','n','g','('] := rfl
theorem lit_floor : "floor(".toList = ['f','l','o','o','r','('] := rfl
theorem lit_number : "number(".toList = ['n','u','m','b','e','r','('] := rfl
theorem lit_round : "round(".toList = ['r','o','u','n','d','('] := rfl
theorem lit_sum : "sum(".toList = ['s','u','m','('] := rfl

theorem get_return_type_cons (ch : Char) (t : string) :
    get_return_type (ch :: t) = .ok (classify_by_table (ch :: t)) := by
  simp only [get_return_type, classify_by_table, Bool.or_eq_true, start_with_iff,
    lit_boolean, lit_count, lit_ceiling, lit_floor, lit_number, lit_round, lit_sum,
    List.cons_prefix_cons]
  by_cases hb : ch = 'b'
  · subst hb; simp
  by_cases hc : ch = 'c'
  · subst hc; simp
  by_cases hf : ch = 'f'
  · subst hf; simp
  by_cases hn : ch = 'n'
  · subst hn; simp
  by_cases hr : ch = 'r'
  · subst hr; simp
  by_cases hs : ch = 's'
  · subst hs; simp
  simp [hb, hc, hf, hn, hr, hs, eq_comm]

/-! ## Lemmas on outcomes -/

namespace Outcome

variable {Node α β : Type}

@[simp] theorem pure_eq (a : α) : (pure a : Outcome Node α) = ret a := rfl

@[simp] theorem bind_eq (x : Outcome Node α) (f : α → Outcome Node β) :
    x >>= f = andThen x f := rfl

@[simp] theorem ret_andThen (a : α) (f : α → Outcome Node β) : andThen (ret a) f = f a := by
  simp [andThen, ret]

@[simp] theorem lift_ok_andThen (a : α) (f : α → Outcome Node β) :
    andThen (lift (.ok a)) f = f a := by
  simp [andThen, lift]

@[simp] theorem lift_error_andThen (e : Failure) (f : α → Outcome Node β) :
    andThen (lift (.error e) : Outcome Node α) f = ⟨[], .error e⟩ := by
  simp [andThen, lift]

@[simp] theorem mk_ok_andThen (c : List (Call Node)) (a : α) (f : α → Outcome Node β) :
    andThen ⟨c, .ok a⟩ f = ⟨c ++ (f a).calls, (f a).result⟩ := rfl

@[simp] theorem mk_error_andThen (c : List (Call Node)) (e : Failure) (f : α → Outcome Node β) :
    andThen (⟨c, .error e⟩ : Outcome Node α) f = ⟨c, .error e⟩ := rfl

theorem andThen_result_ok {x : Outcome Node α} {f : α → Outcome Node β} {b : β}
    (h : (andThen x f).result = .ok b) : ∃ a, x.result = .ok a ∧ (f a).result = .ok b := by
  obtain ⟨c, r⟩ := x
  cases r with
  | error e => simp at h
  | ok a => exact ⟨a, rfl, by simpa using h⟩

theorem andThen_assoc {γ : Type} (x : Outcome Node α) (f : α → Outcome Node β)
    (g : β → Outcome Node γ) :
    andThen (andThen x f) g = andThen x (fun a => andThen (f a) g) := by
  obtain ⟨c, r⟩ := x
  cases r with
  | error e => rfl
  | ok a =>
    simp only [mk_ok_andThen]
    generalize f a = y
    obtain ⟨c', r'⟩ := y
    cases r' with
    | error e => simp
    | ok b => simp

@[simp] theorem andThen_ret (x : Outcome Node α) : andThen x ret = x := by
  cases x with
  | mk c r => cases r <;> simp [andThen, ret]

end Outcome

/-! ## Lemmas on the evaluator calls -/

theorem xpath_node_set_some (E : Capabilities Node Num) (path : string) (doc : Node)
    (r : List Node) (h : E.evaluate_node_set path doc = some r) :
    xpath_node_set E path doc = ⟨[.evaluate_node_set path doc], .ok r⟩ := by
  simp [xpath_node_set, h]

/-! ## Lemmas on leaves -/

theorem get_return_type_hash (v : string) : get_return_type ('#' :: v) = .ok .T_STRING := by
  simp [get_return_type]

theorem find_hash_cons (v : string) : find ('#' :: v) ['#'] = some 0 := by
  simp [find, find_from]

theorem substr_one_cons (c : Char) (v : string) :
    substr (c :: v) 1 (v.length + 1) = .ok v := by
  simp [substr]

theorem walk_hash (E : Capabilities Node Num) (doc : Node) (output : val Num)
    (key v : string) :
    walk E doc (.str ('#' :: v)) output key = ⟨[], .ok (output.set key (.str v))⟩ := by
  simp [walk, get_return_type_hash, query_string, Json.get_string, find_hash_cons,
    substr_one_cons]
  rfl

theorem get_property_replace_self (key : string) (value : val Num) :
    ∀ props : List (string × val Num), (get_property key props).isSome = true →
      get_property key (replace_property key value props) = some value := by
  intro props
  induction props with
  | nil => intro h; simp [get_property] at h
  | cons p rest ih =>
    obtain ⟨k, v⟩ := p
    intro h
    by_cases hk : k = key
    · simp [replace_property, get_property, hk]
    · simp only [get_property, hk, if_false] at h
      simp only [replace_property, get_property, hk, if_false, ih h]

theorem get_property_replace_ne (key other : string) (value : val Num) (h : other ≠ key) :
    ∀ props : List (string × val Num),
      get_property key (replace_property other value props) = get_property key props := by
  intro props
  induction props with
  | nil => rfl
  | cons p rest ih =>
    obtain ⟨k, v⟩ := p
    by_cases hk : k = other
    · subst hk
      simp [replace_property, get_property, h]
    · by_cases hk2 : k = key
      · subst hk2
        simp [replace_property, get_property, hk]
      · simp only [replace_property, get_property, hk, hk2, if_false, ih]

theorem get_property_insert_self (key : string) (value : val Num) :
    ∀ props : List (string × val Num), get_property key props = none →
      get_property key (insert_property key value props) = some value := by
  intro props
  induction props with
  | nil => intro _; simp [insert_property, get_property]
  | cons p rest ih =>
    obtain ⟨k, v⟩ := p
    intro h
    by_cases hk : k = key
    · simp [get_property, hk] at h
    · simp only [get_property, hk, if_false] at h
      by_cases hb : listed_before key k = true
      · simp [insert_property, get_property, hb]
      · simp only [insert_property, hb, get_property, hk, if_false, ih h]

theorem get_property_insert_ne (key other : string) (value : val Num) (h : other ≠ key) :
    ∀ props : List (string × val Num),
      get_property key (insert_property other value props) = get_property key props := by
  intro props
  induction props with
  | nil => simp [insert_property, get_property, h]
  | cons p rest ih =>
    obtain ⟨k, v⟩ := p
    by_cases hb : listed_before other k = true
    · simp [insert_property, get_property, hb, h]
    · by_cases hk2 : k = key
      · subst hk2
        simp [insert_property, get_property, hb]
      · simp only [insert_property, hb, get_property, hk2, if_false, ih]

theorem get_property_set_property (key : string) (value : val Num)
    (props : List (string × val Num)) :
    get_property key (set_property key value props) = some value := by
  unfold set_property
  by_cases h : (get_property key props).isSome = true
  · simp only [h, if_true]
    exact get_property_replace_self key value props h
  · simp only [h, if_false]
    refine get_property_insert_self key value props ?_
    cases hg : get_property key props with
    | none => rfl
    | some x => simp [hg] at h

theorem get_property_set_property_ne (key other : string) (value : val Num)
    (props : List (string × val Num)) (h : other ≠ key) :
    get_property key (set_property other value props) = get_property key props := by
  unfold set_property
  split
  · exact get_property_replace_ne key other value h props
  · exact get_property_insert_ne key other value h props

theorem replace_property_filter_ne (key : string) (value : val Num) :
    ∀ props : List (string × val Num),
      (replace_property key value props).filter (fun e => decide (e.1 ≠ key))
        = props.filter (fun e => decide (e.1 ≠ key)) := by
  intro props
  induction props with
  | nil => rfl
  | cons p rest ih =>
    obtain ⟨k, v⟩ := p
    by_cases hk : k = key
    · simp [replace_property, hk]
    · simp only [replace_property, hk, if_false, List.filter_cons, ih]

theorem insert_property_filter_ne (key : string) (value : val Num) :
    ∀ props : List (string × val Num),
      (insert_property key value props).filter (fun e => decide (e.1 ≠ key))
        = props.filter (fun e => decide (e.1 ≠ key)) := by
  intro props
  induction props with
  | nil => simp [insert_property]
  | cons p rest ih =>
    obtain ⟨k, v⟩ := p
    by_cases hb : listed_before key k = true
    · simp [insert_property, hb]
    · have hcons : insert_property key value ((k, v) :: rest)
          = (k, v) :: insert_property key value rest := by
        simp [insert_property, hb]
      rw [hcons, List.filter_cons, List.filter_cons, ih]

theorem set_property_filter_ne (key : string) (value : val Num)
    (props : List (string × val Num)) :
    (set_property key value props).filter (fun e => decide (e.1 ≠ key))
      = props.filter (fun e => decide (e.1 ≠ key)) := by
  unfold set_property
  split
  · exact replace_property_filter_ne key value props
  · exact insert_property_filter_ne key value props

theorem get_property_none_of_not_mem (key : string) :
    ∀ props : List (string × val Num), key ∉ props.map Prod.fst →
      get_property key props = none := by
  intro props
  induction props with
  | nil => intro _; rfl
  | cons p rest ih =>
    obtain ⟨k, v⟩ := p
    intro h
    simp only [List.map_cons, List.mem_cons, not_or] at h
    have hk : ¬ k = key := fun e => h.1 e.symm
    simp only [get_property, hk, if_false, ih h.2]

theorem listed_before_of_not_index (key other : string) (h : array_index key = none) :
    listed_before key other = false := by
  simp [listed_before, h]

theorem insert_property_of_not_index (key : string) (value : val Num)
    (h : array_index key = none) :
    ∀ props : List (string × val Num),
      insert_property key value props = props ++ [(key, value)] := by
  intro props
  induction props with
  | nil => rfl
  | cons p rest ih =>
    obtain ⟨k, v⟩ := p
    simp [insert_property, listed_before_of_not_index key k h, ih]

theorem set_property_fresh (key : string) (value : val Num) (hindex : array_index key = none)
    (props : List (string × val Num)) (h : key ∉ props.map Prod.fst) :
    set_property key value props = props ++ [(key, value)] := by
  unfold set_property
  rw [get_property_none_of_not_mem key props h]
  simp only [Option.isSome_none, Bool.false_eq_true, if_false]
  exact insert_property_of_not_index key value hindex props

/-! ## Lemmas on `output.set` -/

theorem val.is_object_set (o : val Num) (key : string) (r : val Num) :
    (o.set key r).is_object = o.is_object := by
  cases o <;> by_cases hk : key = proto_key <;> by_cases hr : r.is_js_object = true <;>
    simp [val.set, val.is_object, hk, hr]

theorem val.get_set_self (o : val Num) (key : string) (r : val Num)
    (ho : o.is_object = true) (hkey : key ≠ proto_key) :
    (o.set key r).get key = some r := by
  cases o <;> simp only [val.is_object, Bool.false_eq_true] at ho
  all_goals
    simp only [val.set, hkey, if_false, val.get, val.props]
    exact get_property_set_property key r _

theorem val.props_set_proto (o : val Num) (r : val Num) :
    (o.set proto_key r).props = o.props := by
  cases o <;> by_cases hr : r.is_js_object = true <;> simp [val.set, val.props, hr]

theorem val.get_set_ne (o : val Num) (key other : string) (r : val Num) (h : other ≠ key) :
    (o.set key r).get other = o.get other := by
  by_cases hkey : key = proto_key
  · subst hkey
    simp only [val.get, val.props_set_proto]
  · cases o <;> simp only [val.set, hkey, if_false, val.get, val.props]
    all_goals exact get_property_set_property_ne other key r _ (fun e => h e.symm)

theorem val.props_set_filter_ne (o : val Num) (key : string) (r : val Num) :
    (o.set key r).props.filter (fun e => decide (e.1 ≠ key))
      = o.props.filter (fun e => decide (e.1 ≠ key)) := by
  by_cases hkey : key = proto_key
  · subst hkey
    rw [val.props_set_proto]
  · cases o <;> simp only [val.set, hkey, if_false, val.props]
    all_goals exact set_property_filter_ne key r _

theorem val.set_object_fresh (props : List (string × val Num)) (key : string) (r : val Num)
    (hkey : key ≠ proto_key) (hindex : array_index key = none)
    (h : key ∉ props.map Prod.fst) :
    (val.object props).set key r = .object (props ++ [(key, r)]) := by
  simp only [val.set, hkey, if_false, set_property_fresh key r hindex props h]

theorem boolean_excludes_number (s : string) (hb : "boolean(".toList <+: s) :
    ¬ ("count(".toList <+: s ∨ "ceiling(".toList <+: s ∨ "floor(".toList <+: s
      ∨ "number(".toList <+: s ∨ "round(".toList <+: s ∨ "sum(".toList <+: s) := by
  cases s with
  | nil => simp [lit_boolean] at hb
  | cons ch t =>
    simp only [lit_boolean, lit_count, lit_ceiling, lit_floor, lit_number, lit_round, lit_sum,
      List.cons_prefix_cons] at hb ⊢
    obtain ⟨rfl, _⟩ := hb
    simp

theorem table_cases (B N : Prop) [Decidable B] [Decidable N] (hx : B → ¬ N) :
    ((Except.ok (if B then ReturnType.T_BOOLEAN else if N then .T_NUMBER else .T_STRING) :
        Except Failure ReturnType) = .ok .T_BOOLEAN ↔ B)
    ∧ ((Except.ok (if B then ReturnType.T_BOOLEAN else if N then .T_NUMBER else .T_STRING) :
        Except Failure ReturnType) = .ok .T_NUMBER ↔ N)
    ∧ ((Except.ok (if B then ReturnType.T_BOOLEAN else if N then .T_NUMBER else .T_STRING) :
        Except Failure ReturnType) = .ok .T_STRING ↔ ¬ (B ∨ N)) := by
  by_cases hB : B
  · have hN : ¬ N := hx hB
    simp [hB, hN]
  · by_cases hN : N <;> simp [hB, hN]

/-! ## Unfolding `walk` and `query_array` -/

theorem walk_object (E : Capabilities Node Num) (doc : Node) (members : List (string × Json))
    (output : val Num) (key : string) :
    walk E doc (.object members) output key
      = (query_object E doc members).andThen fun r => Outcome.ret (output.set key r) := rfl

theorem walk_array (E : Capabilities Node Num) (doc : Node) (elems : List Json)
    (output : val Num) (key : string) :
    walk E doc (.array elems) output key
      = (query_array E doc elems).andThen fun r => Outcome.ret (output.set key r) := rfl


theorem query_array_nil (E : Capabilities Node Num) (doc : Node) :
    query_array E doc [] = Outcome.ret (.array []) := rfl

theorem query_array_single (E : Capabilities Node Num) (doc : Node) (first : Json) :
    query_array E doc [first] =
      (Outcome.lift first.get_string).andThen fun base_path =>
      (xpath_node_set E base_path doc).andThen fun nodes =>
      (for_each_node (fun _ arr => Outcome.ret arr) nodes []).andThen fun arr =>
      Outcome.ret (.array arr) := rfl

theorem query_array_object_item (E : Capabilities Node Num) (doc : Node) (first : Json)
    (members : List (string × Json)) (tail : List Json) :
    query_array E doc (first :: .object members :: tail) =
      (Outcome.lift first.get_string).andThen fun base_path =>
      (xpath_node_set E base_path doc).andThen fun nodes =>
      (for_each_node (fun n arr =>
        (query_array_object E n members (.object [])).andThen fun obj =>
        Outcome.ret (arr ++ [obj])) nodes []).andThen fun arr =>
      Outcome.ret (.array arr) := rfl

theorem query_array_str_item (E : Capabilities Node Num) (doc : Node) (first : Json)
    (path : string) (tail : List Json) :
    query_array E doc (first :: .str path :: tail) =
      (Outcome.lift first.get_string).andThen fun base_path =>
      (xpath_node_set E base_path doc).andThen fun nodes =>
      (for_each_node (fun n arr =>
        (Outcome.lift (get_return_type path)).andThen fun t =>
        (if t = .T_STRING then
          (query_string E n (.str path)).andThen fun r => Outcome.ret (arr ++ [.str r])
         else Outcome.ret arr).andThen fun arr =>
        (if t = .T_NUMBER then
          (query_number E n (.str path)).andThen fun r => Outcome.ret (arr ++ [.number r])
         else Outcome.ret arr).andThen fun arr =>
        (if t = .T_BOOLEAN then
          (query_boolean E n (.str path)).andThen fun r => Outcome.ret (arr ++ [.boolean r])
         else Outcome.ret arr).andThen fun arr =>
        Outcome.ret arr) nodes []).andThen fun arr =>
      Outcome.ret (.array arr) := rfl

theorem query_array_other_item (E : Capabilities Node Num) (doc : Node) (first inner : Json)
    (tail : List Json) (hobj : ∀ members, inner ≠ .object members)
    (hstr : ∀ path, inner ≠ .str path) :
    query_array E doc (first :: inner :: tail) =
      (Outcome.lift first.get_string).andThen fun base_path =>
      (xpath_node_set E base_path doc).andThen fun nodes =>
      (for_each_node (fun _ arr => Outcome.ret arr) nodes []).andThen fun arr =>
      Outcome.ret (.array arr) := by
  cases inner with
  | object members => exact absurd rfl (hobj members)
  | str path => exact absurd rfl (hstr path)
  | _ => rfl

theorem for_each_node_nil {α : Type} (body : Node → α → Outcome Node α) (arr : α) :
    for_each_node body [] arr = Outcome.ret arr := rfl

theorem for_each_node_cons {α : Type} (body : Node → α → Outcome Node α) (n : Node)
    (rest : List Node) (arr : α) :
    for_each_node body (n :: rest) arr
      = (body n arr).andThen fun arr => for_each_node body rest arr := rfl

/-! ## `walk` on a non-empty leaf, by class -/

theorem walk_leaf_number (E : Capabilities Node Num) (doc : Node) (output : val Num)
    (key s : string) (h : get_return_type s = .ok .T_NUMBER) :
    walk E doc (.str s) output key
      = (xpath_number E s doc).andThen fun r => Outcome.ret (output.set key (.number r)) := by
  cases s with
  | nil => simp [get_return_type] at h
  | cons ch t => simp [walk, h, query_number, Json.get_string]

theorem walk_leaf_boolean (E : Capabilities Node Num) (doc : Node) (output : val Num)
    (key s : string) (h : get_return_type s = .ok .T_BOOLEAN) :
    walk E doc (.str s) output key
      = (xpath_boolean E s doc).andThen fun r => Outcome.ret (output.set key (.boolean r)) := by
  cases s with
  | nil => simp [get_return_type] at h
  | cons ch t => simp [walk, h, query_boolean, Json.get_string]

theorem walk_leaf_string_plain (E : Capabilities Node Num) (doc : Node) (output : val Num)
    (key s : string) (h : get_return_type s = .ok .T_STRING) (hf : find s ['#'] = none) :
    walk E doc (.str s) output key
      = (xpath_string E s doc).andThen fun r => Outcome.ret (output.set key (.str r)) := by
  cases s with
  | nil => simp [get_return_type] at h
  | cons ch t => simp [walk, h, query_string, Json.get_string, hf]

theorem walk_leaf_string_hash (E : Capabilities Node Num) (doc : Node) (output : val Num)
    (key s : string) (h : get_return_type s = .ok .T_STRING)
    (hf : (find s ['#']).isSome = true) :
    walk E doc (.str s) output key = ⟨[], .ok (output.set key (.str (s.drop 1)))⟩ := by
  cases s with
  | nil => simp [get_return_type] at h
  | cons ch t =>
    simp [walk, h, query_string, Json.get_string, hf, substr_one_cons]
    rfl

/-! ## What `walk` writes -/

theorem walk_result (E : Capabilities Node Num) (doc : Node) (n : Json) (output : val Num)
    (key : string) (out : val Num) (h : (walk E doc n output key).result = .ok out) :
    out = output ∨ ∃ r, out = output.set key r := by
  cases n with
  | null => left; simpa [walk, Outcome.ret] using h.symm
  | boolean b => left; simpa [walk, Outcome.ret] using h.symm
  | number x => left; simpa [walk, Outcome.ret] using h.symm
  | array elems =>
    right
    simp only [walk, Outcome.bind_eq, Outcome.pure_eq] at h
    obtain ⟨r, _, hr⟩ := Outcome.andThen_result_ok h
    exact ⟨r, by simpa [Outcome.ret] using hr.symm⟩
  | object members =>
    right
    simp only [walk, Outcome.bind_eq, Outcome.pure_eq] at h
    obtain ⟨r, _, hr⟩ := Outcome.andThen_result_ok h
    exact ⟨r, by simpa [Outcome.ret] using hr.symm⟩
  | str path =>
    right
    cases path with
    | nil => exact ⟨.str [], by simpa [walk, Outcome.ret] using h.symm⟩
    | cons ch t =>
      simp only [walk, List.isEmpty_cons, Bool.false_eq_true, if_false, Outcome.bind_eq,
        Outcome.pure_eq, get_return_type_cons, Outcome.lift_ok_andThen] at h
      cases hc : classify_by_table (ch :: t) <;> rw [hc] at h <;>
        simp only [reduceCtorEq, if_true, if_false, Outcome.ret_andThen, Outcome.andThen_ret] at h
      all_goals
        obtain ⟨r, _, hr⟩ := Outcome.andThen_result_ok h
        exact ⟨_, by simpa [Outcome.ret] using hr.symm⟩

/-- What the loop of `transform` leaves at a key other than `__proto__` that
the template maps to a literal leaf: once that key has been visited, or if the
output already holds the literal, the final output holds the literal. -/
theorem transform_loop_literal (E : Capabilities Node Num) (doc : Node)
    (members : List (string × Json)) (k v : string)
    (hk : members_find k members = some (.str ('#' :: v))) (hproto : k ≠ proto_key) :
    ∀ (rest : List (string × Json)) (output out : val Num),
      output.is_object = true →
      (transform_loop E doc (.object members) rest output).result = .ok out →
      (k ∈ rest.map Prod.fst ∨ output.get k = some (.str v)) →
      out.get k = some (.str v) := by
  intro rest
  induction rest with
  | nil =>
    intro output out _ h hpre
    have hout : out = output := by simpa [transform_loop, Outcome.ret] using h.symm
    subst hout
    rcases hpre with hmem | hget
    · simp at hmem
    · exact hget
  | cons entry rest ih =>
    obtain ⟨key, x⟩ := entry
    intro output out hobj h hpre
    simp only [transform_loop, Json.at_key, Outcome.bind_eq, Outcome.lift_ok_andThen] at h
    obtain ⟨mid, hwalk, hrest⟩ := Outcome.andThen_result_ok h
    by_cases hkey : key = k
    · subst hkey
      rw [hk] at hwalk
      simp only [Option.getD_some, walk_hash] at hwalk
      have hmid : mid = output.set key (.str v) := by
        simpa using hwalk.symm
      subst hmid
      exact ih _ out (by rw [val.is_object_set]; exact hobj) hrest
        (Or.inr (val.get_set_self output key _ hobj hproto))
    · have hframe : mid.is_object = true ∧ mid.get k = output.get k := by
        rcases walk_result E doc _ _ key mid hwalk with hsame | ⟨r, hset⟩
        · subst hsame
          exact ⟨hobj, rfl⟩
        · subst hset
          exact ⟨by rw [val.is_object_set]; exact hobj,
            val.get_set_ne output key k r (fun e => hkey e.symm)⟩
      refine ih mid out hframe.1 hrest ?_
      rcases hpre with hmem | hpre
      · left
        simp only [List.map_cons, List.mem_cons] at hmem
        rcases hmem with heq | hmem
        · exact absurd heq.symm hkey
        · exact hmem
      · right
        rw [hframe.2]; exact hpre

theorem members_find_mem (k : string) (j : Json) :
    ∀ members : List (string × Json), members_find k members = some j →
      k ∈ members.map Prod.fst := by
  intro members
  induction members with
  | nil => intro h; simp [members_find] at h
  | cons entry rest ih =>
    obtain ⟨key, x⟩ := entry
    intro h
    by_cases hkey : key = k
    · subst hkey
      exact List.mem_cons_self _ _
    · simp only [members_find, hkey, if_false] at h
      exact List.mem_cons_of_mem _ (ih h)

/-! ## The loop over the matched nodes -/

theorem query_array_object_eq_loop (E : Capabilities Node Num) (n : Node) :
    ∀ (members : List (string × Json)) (obj : val Num),
      query_array_object E n members obj = query_object_loop E n members obj := by
  intro members
  induction members with
  | nil => intro obj; rfl
  | cons entry rest ih =>
    obtain ⟨key, value⟩ := entry
    intro obj
    simp only [query_array_object, query_object_loop, ih]

theorem for_each_node_collect {β : Type} (f : Node → Outcome Node β) :
    ∀ (nodes : List Node) (acc : List β),
      for_each_node (fun n arr => (f n).andThen fun b => Outcome.ret (arr ++ [b])) nodes acc
        = (run_each f nodes).andThen fun bs => Outcome.ret (acc ++ bs) := by
  intro nodes
  induction nodes with
  | nil => intro acc; simp [for_each_node_nil, run_each]
  | cons n rest ih =>
    intro acc
    simp only [for_each_node_cons, run_each, Outcome.andThen_assoc, Outcome.ret_andThen, ih,
      List.append_assoc, List.singleton_append]

theorem run_each_ok {β : Type} (f : Node → Outcome Node β) (g : Node → β) :
    ∀ nodes : List Node, (∀ n ∈ nodes, (f n).result = .ok (g n)) →
      run_each f nodes = ⟨nodes.flatMap (fun n => (f n).calls), .ok (nodes.map g)⟩ := by
  intro nodes
  induction nodes with
  | nil => intro _; rfl
  | cons n rest ih =>
    intro h
    have hn : f n = ⟨(f n).calls, .ok (g n)⟩ := by
      have := h n (List.mem_cons_self _ _)
      cases hfn : f n with
      | mk c r => rw [hfn] at this; simp only at this; rw [this]
    have hrest := ih (fun m hm => h m (List.mem_cons_of_mem _ hm))
    simp only [run_each, hrest]
    rw [hn]
    simp [Outcome.ret]

/-! ## The claims -/

/-- C1: on every non-empty path the first-character dispatch of
`get_return_type` returns, and agrees with the prefix table: Boolean exactly
when the path starts with `boolean(`, Number exactly when it starts with one of
`count(`, `ceiling(`, `floor(`, `number(`, `round(`, `sum(`, String otherwise. -/
theorem get_return_type_prefix_table (s : string) (h : s ≠ []) :
    get_return_type s = .ok (classify_by_table s)
    ∧ (get_return_type s = .ok .T_BOOLEAN ↔ "boolean(".toList <+: s)
    ∧ (get_return_type s = .ok .T_NUMBER ↔
        ("count(".toList <+: s ∨ "ceiling(".toList <+: s ∨ "floor(".toList <+: s
          ∨ "number(".toList <+: s ∨ "round(".toList <+: s ∨ "sum(".toList <+: s))
    ∧ (get_return_type s = .ok .T_STRING ↔
        ¬ ("boolean(".toList <+: s ∨ "count(".toList <+: s ∨ "ceiling(".toList <+: s
          ∨ "floor(".toList <+: s ∨ "number(".toList <+: s ∨ "round(".toList <+: s
          ∨ "sum(".toList <+: s)) := by
  cases s with
  | nil => exact absurd rfl h
  | cons ch t =>
    rw [get_return_type_cons]
    exact ⟨rfl, table_cases _ _ (boolean_excludes_number (ch :: t))⟩

/-- C1, on the four paths the specification lists. -/
theorem get_return_type_prefix_table_witness :
    get_return_type "count(//item)".toList = .ok .T_NUMBER
    ∧ get_return_type "boolean(//a)".toList = .ok .T_BOOLEAN
    ∧ get_return_type "//name".toList = .ok .T_STRING
    ∧ get_return_type "sum(//price)".toList = .ok .T_NUMBER :=
  ⟨(get_return_type_prefix_table "count(//item)".toList (by decide)).1.trans (by rfl),
   (get_return_type_prefix_table "boolean(//a)".toList (by decide)).1.trans (by rfl),
   (get_return_type_prefix_table "//name".toList (by decide)).1.trans (by rfl),
   (get_return_type_prefix_table "sum(//price)".toList (by decide)).1.trans (by rfl)⟩

/-- C2, as stated, fails at the key `__proto__`: `walk` on the leaf `#v` makes
no evaluator call, but the assignment reaches the inherited setter, which
ignores a string, so the output is unchanged and holds nothing at that key. -/
theorem walk_literal_leaf_proto_key :
    walk sample 0 (.str "#v".toList) (.object []) proto_key = ⟨[], .ok (.object [])⟩
    ∧ ¬ (∃ out, (walk sample 0 (.str "#v".toList) (.object []) proto_key).result = .ok out
          ∧ out.get proto_key = some (.str "v".toList)) := by
  refine ⟨rfl, ?_⟩
  rintro ⟨out, hout, hget⟩
  have h : (walk sample 0 (.str "#v".toList) (.object []) proto_key).result
      = .ok (.object []) := rfl
  rw [h] at hout
  cases hout
  simp [val.get, val.props, get_property] at hget

/-- C2, amended: `walk` on the leaf `"#" + v` makes no evaluator call and
returns `output.set(key, v)`, for every environment, context, key and `v`; for
every key other than `__proto__` the output object then holds exactly `v` at
`key`. -/
theorem walk_literal_leaf (E : Capabilities Node Num) (doc : Node) (output : val Num)
    (key v : string) :
    walk E doc (.str ('#' :: v)) output key = ⟨[], .ok (output.set key (.str v))⟩
    ∧ (output.is_object = true → key ≠ proto_key →
        (output.set key (.str v)).get key = some (.str v)) :=
  ⟨walk_hash E doc output key v, fun ho hkey => val.get_set_self output key _ ho hkey⟩

/-- C2, amended, on the leaf `#count(//item)` at key `k`: the literal is
stored next to the entry already there, with no call. -/
theorem walk_literal_leaf_witness :
    walk sample 0 (.str "#count(//item)".toList) (.object [("a".toList, .str "x".toList)])
        "k".toList
      = ⟨[], .ok (.object [("a".toList, .str "x".toList),
          ("k".toList, .str "count(//item)".toList)])⟩
    ∧ (val.object [("a".toList, .str "x".toList),
          ("k".toList, .str "count(//item)".toList)] : val Int).get "k".toList
        = some (.str "count(//item)".toList) :=
  ⟨(walk_literal_leaf sample 0 (.object [("a".toList, .str "x".toList)]) "k".toList
      "count(//item)".toList).1,
    (walk_literal_leaf sample 0 (.object [("a".toList, .str "x".toList)]) "k".toList
      "count(//item)".toList).2 rfl (by decide)⟩

/-- C3: the empty-string leaf is safe under `walk` (no evaluator call, `""`
stored), but as the item of an array form `query_array` passes it to
`get_return_type`, whose `path.at(0)` throws: with at least one matched node
the call ends in `out_of_range` instead of returning empty strings. -/
theorem query_array_empty_string_item (E : Capabilities Node Num) (doc : Node)
    (output : val Num) (key base_path : string) (n : Node) (rest : List Node)
    (h : E.evaluate_node_set base_path doc = some (n :: rest)) :
    walk E doc (.str []) output key = ⟨[], .ok (output.set key (.str []))⟩
    ∧ query_array E doc [.str base_path, .str []]
        = ⟨[.evaluate_node_set base_path doc], .error .out_of_range⟩ := by
  constructor
  · simp [walk]
    rfl
  · rw [query_array_str_item]
    simp [Json.get_string, xpath_node_set_some E _ _ _ h, for_each_node_cons, get_return_type,
      Outcome.lift]

/-- C3, on the sample document: `["//item", ""]` matches two nodes and throws. -/
theorem query_array_empty_string_item_witness :
    sample.evaluate_node_set "//item".toList 0 = some [1, 2]
    ∧ query_array sample 0 [.str "//item".toList, .str []]
        = ⟨[.evaluate_node_set "//item".toList 0], .error .out_of_range⟩ :=
  ⟨rfl, (query_array_empty_string_item sample 0 (.object []) [] "//item".toList 1 [2] rfl).2⟩

/-- C4: the leaf `//a[.='#']` is non-empty and does not start with `#`, yet
`walk` makes no evaluator call on it: `query_string` finds the `#` inside the
path and stores the path without its first character. -/
theorem walk_hash_inside_leaf (E : Capabilities Node Num) (doc : Node) (output : val Num)
    (key : string) :
    walk E doc (.str "//a[.='#']".toList) output key
      = ⟨[], .ok (output.set key (.str "/a[.='#']".toList))⟩ := by
  rfl

/-- C5: when the document text fails to parse, `transform` returns the empty
object, with no error and no evaluator call, whatever the template text. -/
theorem transform_document_parse_failure (E : Capabilities Node Num)
    (xml json_template : string) (h : E.load_string xml = none) :
    transform E xml json_template = ⟨[], .ok (.object [])⟩ := by
  simp [transform, h]
  rfl

/-- C5, on the text `<not-closed` and a template text that is no JSON. -/
theorem transform_document_parse_failure_witness :
    sample.load_string "<not-closed".toList = none
    ∧ transform sample "<not-closed".toList "\x7b".toList = ⟨[], .ok (.object [])⟩ :=
  ⟨rfl, transform_document_parse_failure sample "<not-closed".toList "\x7b".toList rfl⟩

/-- C6, as stated, fails: with a document text that does not parse, a template
text that is no JSON gives the empty object, not a failure. -/
theorem transform_bad_template_bad_document :
    sample.parse "\x7b".toList = none
    ∧ ¬ (∃ e, (transform sample "<not-closed".toList "\x7b".toList).result = .error e)
    ∧ (transform sample "<not-closed".toList "\x7b".toList).result = .ok (.object []) := by
  refine ⟨rfl, ?_, rfl⟩
  rintro ⟨e, he⟩
  have h : (transform sample "<not-closed".toList "\x7b".toList).result = .ok (.object []) := rfl
  rw [h] at he
  cases he

/-- C6, amended: when the document text parses, a template text that is no
JSON makes `transform` fail with `parse_error`, before any evaluator call, and
no output value is produced. -/
theorem transform_template_parse_failure (E : Capabilities Node Num)
    (xml json_template : string) (doc : Node)
    (hdoc : E.load_string xml = some doc) (h : E.parse json_template = none) :
    transform E xml json_template = ⟨[], .error .parse_error⟩ := by
  simp [transform, hdoc, h]

/-- C6, amended, on the sample document and the template text `{`. -/
theorem transform_template_parse_failure_witness :
    sample.load_string sample_xml = some 0 ∧ sample.parse "\x7b".toList = none
    ∧ transform sample sample_xml "\x7b".toList = ⟨[], .error .parse_error⟩ :=
  ⟨rfl, rfl, transform_template_parse_failure sample sample_xml "\x7b".toList 0 rfl rfl⟩

/-- C9: when the base path matches no node, `query_array` on
`[basePath, itemTemplate]` returns the empty sequence and raises no error,
after the one node-set call, whatever the item template is. -/
theorem query_array_no_match (E : Capabilities Node Num) (doc : Node) (base_path : string)
    (item : Json) (h : E.evaluate_node_set base_path doc = some []) :
    query_array E doc [.str base_path, item]
      = ⟨[.evaluate_node_set base_path doc], .ok (.array [])⟩ := by
  have hloop : ∀ body : Node → List (val Num) → Outcome Node (List (val Num)),
      ((Outcome.lift (Json.str base_path).get_string).andThen fun base_path =>
        (xpath_node_set E base_path doc).andThen fun nodes =>
        (for_each_node body nodes []).andThen fun arr => Outcome.ret (val.array arr))
      = (⟨[Call.evaluate_node_set base_path doc], Except.ok (val.array [])⟩ :
          Outcome Node (val Num)) := by
    intro body
    simp [Json.get_string, xpath_node_set_some E _ _ _ h, for_each_node_nil, Outcome.ret,
      Outcome.lift]
  cases item with
  | object members => rw [query_array_object_item]; exact hloop _
  | str path => rw [query_array_str_item]; exact hloop _
  | null => exact hloop _
  | boolean b => exact hloop _
  | number x => exact hloop _
  | array elems => exact hloop _

/-- C9, on the sample document: `//none` matches nothing. -/
theorem query_array_no_match_witness :
    sample.evaluate_node_set "//none".toList 0 = some []
    ∧ query_array sample 0 [.str "//none".toList, .array [.number 1]]
        = ⟨[.evaluate_node_set "//none".toList 0], .ok (.array [])⟩ :=
  ⟨rfl, query_array_no_match sample 0 "//none".toList (.array [.number 1]) rfl⟩

/-- C7, as stated, fails twice over: with a document text that does not
parse, the template `{"k":"#v"}` gives the empty object, which has nothing at
key `k`; and with the sample document, the template `{"__proto__":"#v"}` gives
the empty object too, because the key `__proto__` stores no string. -/
theorem transform_literal_bad_document :
    sample.parse literal_template_text = some (.object [("k".toList, .str "#v".toList)])
    ∧ (transform sample "<not-closed".toList literal_template_text).result = .ok (.object [])
    ∧ ¬ (∃ out, (transform sample "<not-closed".toList literal_template_text).result = .ok out
          ∧ out.get "k".toList = some (.str "v".toList))
    ∧ sample_proto.parse proto_template_text
        = some (.object [(proto_key, .str "#v".toList)])
    ∧ (transform sample_proto sample_xml proto_template_text).result = .ok (.object [])
    ∧ ¬ (∃ out, (transform sample_proto sample_xml proto_template_text).result = .ok out
          ∧ out.get proto_key = some (.str "v".toList)) := by
  refine ⟨rfl, rfl, ?_, rfl, rfl, ?_⟩
  · rintro ⟨out, hout, hget⟩
    have h : (transform sample "<not-closed".toList literal_template_text).result
        = .ok (.object []) := rfl
    rw [h] at hout
    cases hout
    simp [val.get, val.props, get_property] at hget
  · rintro ⟨out, hout, hget⟩
    have h : (transform sample_proto sample_xml proto_template_text).result
        = .ok (.object []) := rfl
    rw [h] at hout
    cases hout
    simp [val.get, val.props, get_property] at hget

/-- C7, amended: when the document text parses and the template is an object
that maps a key `k` other than `__proto__` to the literal leaf `"#" + v`,
every output `transform` returns has the value `v` at key `k`. -/
theorem transform_literal_leaf (E : Capabilities Node Num) (xml json_template : string)
    (doc : Node) (members : List (string × Json)) (k v : string) (out : val Num)
    (hdoc : E.load_string xml = some doc)
    (htemplate : E.parse json_template = some (.object members))
    (hk : members_find k members = some (.str ('#' :: v)))
    (hproto : k ≠ proto_key)
    (hout : (transform E xml json_template).result = .ok out) :
    out.get k = some (.str v) := by
  simp only [transform, hdoc, htemplate, Outcome.bind_eq, Outcome.lift_ok_andThen] at hout
  exact transform_loop_literal E doc members k v hk hproto members (.object []) out rfl hout
    (Or.inl (members_find_mem k _ members hk))

/-- C7, amended, on the sample document and the template `{"k":"#v"}`: the
transform returns `{"k":"v"}`. -/
theorem transform_literal_leaf_witness :
    (transform sample sample_xml literal_template_text).result
        = .ok (.object [("k".toList, .str "v".toList)])
    ∧ (val.object [("k".toList, .str "v".toList)] : val Int).get "k".toList
        = some (.str "v".toList) :=
  ⟨rfl, transform_literal_leaf sample sample_xml literal_template_text 0
    [("k".toList, .str "#v".toList)] "k".toList "v".toList _ rfl rfl rfl (by decide) rfl⟩

/-- C10: for an array form whose item template is an object, `query_array`
evaluates the base path once and then does what `query_object` does at each
matched node, in the evaluator's order: when `query_object` returns `g n` at
every matched node `n`, the result is the sequence of the `g n`, of the same
length as the node set, and the calls are those of the walks, node by node. -/
theorem query_array_object_items (E : Capabilities Node Num) (doc : Node) (base_path : string)
    (members : List (string × Json)) :
    query_array E doc [.str base_path, .object members]
      = ((xpath_node_set E base_path doc).andThen fun nodes =>
          (run_each (fun n => query_object E n members) nodes).andThen fun objs =>
          Outcome.ret (.array objs))
    ∧ ∀ (nodes : List Node) (g : Node → val Num),
        E.evaluate_node_set base_path doc = some nodes →
        (∀ n ∈ nodes, (query_object E n members).result = .ok (g n)) →
        query_array E doc [.str base_path, .object members]
          = ⟨.evaluate_node_set base_path doc
              :: nodes.flatMap (fun n => (query_object E n members).calls),
             .ok (.array (nodes.map g))⟩
        ∧ (nodes.map g).length = nodes.length := by
  have heq : query_array E doc [.str base_path, .object members]
      = ((xpath_node_set E base_path doc).andThen fun nodes =>
          (run_each (fun n => query_object E n members) nodes).andThen fun objs =>
          Outcome.ret (.array objs)) := by
    rw [query_array_object_item]
    simp only [Json.get_string, Outcome.lift_ok_andThen, query_array_object_eq_loop]
    congr 1
    funext nodes
    have := for_each_node_collect (fun n => query_object E n members) nodes []
    simp only [query_object, List.nil_append] at this ⊢
    rw [this]
    simp [Outcome.andThen_assoc]
  refine ⟨heq, ?_⟩
  intro nodes g hnodes hobjs
  refine ⟨?_, List.length_map _ _⟩
  rw [heq, xpath_node_set_some E _ _ _ hnodes, Outcome.mk_ok_andThen,
    run_each_ok (fun n => query_object E n members) g nodes hobjs]
  simp [Outcome.ret]

/-- C10, on the sample document and the item template
`{"name":"name()","id":"@id"}`: two items, two objects, in document order; and
the transform of the template `{"items":["//item",{"name":"name()","id":"@id"}]}`. -/
theorem query_array_object_items_witness :
    sample.evaluate_node_set "//item".toList 0 = some [1, 2]
    ∧ query_array sample 0 [.str "//item".toList, .object item_members]
      = ⟨[.evaluate_node_set "//item".toList 0,
          .evaluate_string "name()".toList 1, .evaluate_string "@id".toList 1,
          .evaluate_string "name()".toList 2, .evaluate_string "@id".toList 2],
         .ok (.array [
          .object [("name".toList, .str "item".toList), ("id".toList, .str "1".toList)],
          .object [("name".toList, .str "item".toList), ("id".toList, .str "2".toList)]])⟩
    ∧ (transform sample sample_xml items_template_text).result
      = .ok (.object [("items".toList, .array [
          .object [("name".toList, .str "item".toList), ("id".toList, .str "1".toList)],
          .object [("name".toList, .str "item".toList), ("id".toList, .str "2".toList)]])]) :=
  ⟨rfl, ((query_array_object_items sample 0 "//item".toList item_members).2 [1, 2]
    (fun n => .object [("name".toList, .str "item".toList),
      ("id".toList, .str (if n = 1 then "1".toList else "2".toList))])
    rfl
    (by
      intro n hn
      simp only [List.mem_cons, List.mem_singleton, List.not_mem_nil, or_false] at hn
      rcases hn with rfl | rfl <;> rfl)).1, rfl⟩

/-! ## Lemmas for the array expander and the entry point -/

theorem for_each_node_skip {α : Type} :
    ∀ (nodes : List Node) (arr : α),
      for_each_node (fun _ arr => (Outcome.ret arr : Outcome Node α)) nodes arr
        = Outcome.ret arr := by
  intro nodes
  induction nodes with
  | nil => intro arr; rfl
  | cons n rest ih =>
    intro arr
    rw [for_each_node_cons, Outcome.ret_andThen, ih]

theorem members_find_of_nodup :
    ∀ (members : List (string × Json)), (members.map Prod.fst).Nodup →
      ∀ e ∈ members, members_find e.1 members = some e.2 := by
  intro members
  induction members with
  | nil => intro _ e he; cases he
  | cons entry rest ih =>
    obtain ⟨key, value⟩ := entry
    intro hnodup e he
    simp only [List.map_cons, List.nodup_cons] at hnodup
    rcases List.mem_cons.mp he with heq | hmem
    · subst heq
      simp [members_find]
    · have hne : key ≠ e.1 := by
        intro h
        exact hnodup.1 (h ▸ List.mem_map_of_mem Prod.fst hmem)
      simp only [members_find, hne, if_false]
      exact ih hnodup.2 e hmem

theorem transform_loop_eq_query_object_loop (E : Capabilities Node Num) (doc : Node)
    (members : List (string × Json)) :
    ∀ (rest : List (string × Json)) (output : val Num),
      (∀ e ∈ rest, members_find e.1 members = some e.2) →
      transform_loop E doc (.object members) rest output
        = query_object_loop E doc rest output := by
  intro rest
  induction rest with
  | nil => intro output _; rfl
  | cons entry rest ih =>
    obtain ⟨key, value⟩ := entry
    intro output h
    have hkey : members_find key members = some value := h (key, value) (List.mem_cons_self _ _)
    have hrest : ∀ e ∈ rest, members_find e.1 members = some e.2 :=
      fun e he => h e (List.mem_cons_of_mem _ he)
    simp only [transform_loop, query_object_loop, Json.at_key, hkey, Option.getD_some,
      Outcome.bind_eq, Outcome.lift_ok_andThen]
    congr 1
    funext mid
    exact ih mid hrest

/-! ## Lemmas for the scalar rule -/

theorem find_from_hash_isSome :
    ∀ (s : string) (pos : Nat), (find_from ['#'] s pos).isSome = true ↔ '#' ∈ s := by
  intro s
  induction s with
  | nil => intro pos; simp [find_from]
  | cons c t ih =>
    intro pos
    by_cases hc : '#' = c
    · subst hc
      simp [find_from]
    · have hc' : ¬ c = '#' := fun h => hc h.symm
      simp [find_from, hc, hc', ih]

theorem find_hash_isSome (s : string) : (find s ['#']).isSome = true ↔ '#' ∈ s :=
  find_from_hash_isSome s 0

theorem xpath_number_andThen_ret_calls {β : Type} (E : Capabilities Node Num) (s : string)
    (doc : Node) (f : Num → β) :
    ((xpath_number E s doc).andThen fun r => (Outcome.ret (f r) : Outcome Node β)).calls
      = [.evaluate_number s doc] := by
  cases h : E.evaluate_number s doc <;> simp [xpath_number, h, Outcome.ret]

theorem xpath_boolean_andThen_ret_calls {β : Type} (E : Capabilities Node Num) (s : string)
    (doc : Node) (f : Bool → β) :
    ((xpath_boolean E s doc).andThen fun r => (Outcome.ret (f r) : Outcome Node β)).calls
      = [.evaluate_boolean s doc] := by
  cases h : E.evaluate_boolean s doc <;> simp [xpath_boolean, h, Outcome.ret]

theorem xpath_string_andThen_ret_calls {β : Type} (E : Capabilities Node Num) (s : string)
    (doc : Node) (f : string → β) :
    ((xpath_string E s doc).andThen fun r => (Outcome.ret (f r) : Outcome Node β)).calls
      = [.evaluate_string s doc] := by
  cases h : E.evaluate_string s doc <;> simp [xpath_string, h, Outcome.ret]

/-! ## Lemmas for the frame of `walk` -/

theorem walk_result_set (E : Capabilities Node Num) (doc : Node) (n : Json) (output : val Num)
    (key : string) (out : val Num)
    (htemplate : (∃ elems, n = .array elems) ∨ (∃ members, n = .object members)
      ∨ (∃ s, n = .str s))
    (h : (walk E doc n output key).result = .ok out) :
    ∃ r, out = output.set key r := by
  rcases walk_result E doc n output key out h with hsame | hset
  · rcases htemplate with ⟨elems, rfl⟩ | ⟨members, rfl⟩ | ⟨s, rfl⟩
    · rw [walk_array] at h
      obtain ⟨r, _, hr⟩ := Outcome.andThen_result_ok h
      exact ⟨r, by simpa [Outcome.ret] using hr.symm⟩
    · rw [walk_object] at h
      obtain ⟨r, _, hr⟩ := Outcome.andThen_result_ok h
      exact ⟨r, by simpa [Outcome.ret] using hr.symm⟩
    · cases s with
      | nil => exact ⟨.str [], by simpa [walk, Outcome.ret] using h.symm⟩
      | cons ch t =>
        simp only [walk, List.isEmpty_cons, Bool.false_eq_true, if_false, Outcome.bind_eq,
          Outcome.pure_eq, get_return_type_cons, Outcome.lift_ok_andThen] at h
        cases hc : classify_by_table (ch :: t) <;> rw [hc] at h <;>
          simp only [reduceCtorEq, if_true, if_false, Outcome.ret_andThen,
            Outcome.andThen_ret] at h
        all_goals
          obtain ⟨r, _, hr⟩ := Outcome.andThen_result_ok h
          exact ⟨_, by simpa [Outcome.ret] using hr.symm⟩
  · exact hset

/-! ## Lemmas for string items -/

theorem Outcome.andThen_ret_calls {α β : Type} (x : Outcome Node α) (f : α → β) :
    (x.andThen fun a => (Outcome.ret (f a) : Outcome Node β)).calls = x.calls := by
  obtain ⟨c, r⟩ := x
  cases r <;> simp [Outcome.ret]

theorem walk_leaf_value (E : Capabilities Node Num) (n : Node) (output : val Num)
    (key s : string) (hs : s ≠ []) :
    walk E n (.str s) output key
      = (leaf_value E n s).andThen fun v => Outcome.ret (output.set key v) := by
  cases s with
  | nil => exact absurd rfl hs
  | cons ch t =>
    simp only [walk, leaf_value, List.isEmpty_cons, Bool.false_eq_true, if_false,
      Outcome.bind_eq, Outcome.pure_eq, get_return_type_cons, Outcome.lift_ok_andThen]
    cases classify_by_table (ch :: t) <;>
      simp [Outcome.andThen_assoc]

theorem item_leaf_value (E : Capabilities Node Num) (n : Node) (arr : List (val Num))
    (s : string) :
    ((Outcome.lift (get_return_type s)).andThen fun t =>
      (if t = .T_STRING then
        (query_string E n (.str s)).andThen fun r => Outcome.ret (arr ++ [.str r])
       else Outcome.ret arr).andThen fun arr =>
      (if t = .T_NUMBER then
        (query_number E n (.str s)).andThen fun r => Outcome.ret (arr ++ [.number r])
       else Outcome.ret arr).andThen fun arr =>
      (if t = .T_BOOLEAN then
        (query_boolean E n (.str s)).andThen fun r => Outcome.ret (arr ++ [.boolean r])
       else Outcome.ret arr).andThen fun arr =>
      Outcome.ret arr)
    = (leaf_value E n s).andThen fun v => Outcome.ret (arr ++ [v]) := by
  unfold leaf_value
  cases hrt : get_return_type s with
  | error e => simp
  | ok t => cases t <;> simp [Outcome.andThen_assoc]

theorem query_array_str_item_leaf (E : Capabilities Node Num) (doc : Node) (first : Json)
    (s : string) (tail : List Json) :
    query_array E doc (first :: .str s :: tail) =
      (Outcome.lift first.get_string).andThen fun base_path =>
      (xpath_node_set E base_path doc).andThen fun nodes =>
      (run_each (fun n => leaf_value E n s) nodes).andThen fun vs =>
      Outcome.ret (.array vs) := by
  rw [query_array_str_item]
  simp only [item_leaf_value, for_each_node_collect, List.nil_append, Outcome.andThen_assoc,
    Outcome.ret_andThen]

/-! ## Lemmas for the shape of the output -/

theorem query_array_tail_result (x : Outcome Node (List (val Num))) (r : val Num)
    (h : (x.andThen fun arr => (Outcome.ret (.array arr) : Outcome Node (val Num))).result
      = .ok r) :
    ∃ arr, r = .array arr := by
  obtain ⟨arr, _, harr⟩ := Outcome.andThen_result_ok h
  exact ⟨arr, by simpa [Outcome.ret] using harr.symm⟩

theorem query_array_steps_result (first : Outcome Node string)
    (second : string → Outcome Node (List Node))
    (third : List Node → Outcome Node (List (val Num))) (r : val Num)
    (h : (first.andThen fun base_path => (second base_path).andThen fun nodes =>
      (third nodes).andThen fun arr =>
        (Outcome.ret (.array arr) : Outcome Node (val Num))).result = .ok r) :
    ∃ arr, r = .array arr := by
  obtain ⟨base_path, _, h⟩ := Outcome.andThen_result_ok h
  obtain ⟨nodes, _, h⟩ := Outcome.andThen_result_ok h
  exact query_array_tail_result _ r h

theorem query_array_result_array (E : Capabilities Node Num) (doc : Node) (elems : List Json)
    (r : val Num) (h : (query_array E doc elems).result = .ok r) :
    ∃ arr, r = .array arr := by
  cases elems with
  | nil => exact ⟨[], by simpa [query_array_nil, Outcome.ret] using h.symm⟩
  | cons first rest =>
    cases rest with
    | nil =>
      rw [query_array_single] at h
      exact query_array_steps_result _ _ _ r h
    | cons inner tail =>
      cases inner with
      | object members =>
        rw [query_array_object_item] at h
        exact query_array_steps_result _ _ _ r h
      | str path =>
        rw [query_array_str_item] at h
        exact query_array_steps_result _ _ _ r h
      | null =>
        rw [query_array_other_item E doc first .null tail (fun _ h => Json.noConfusion h)
          (fun _ h => Json.noConfusion h)] at h
        exact query_array_steps_result _ _ _ r h
      | boolean b =>
        rw [query_array_other_item E doc first (.boolean b) tail
          (fun _ h => Json.noConfusion h) (fun _ h => Json.noConfusion h)] at h
        exact query_array_steps_result _ _ _ r h
      | number x =>
        rw [query_array_other_item E doc first (.number x) tail
          (fun _ h => Json.noConfusion h) (fun _ h => Json.noConfusion h)] at h
        exact query_array_steps_result _ _ _ r h
      | array elems =>
        rw [query_array_other_item E doc first (.array elems) tail
          (fun _ h => Json.noConfusion h) (fun _ h => Json.noConfusion h)] at h
        exact query_array_steps_result _ _ _ r h

theorem leaf_value_scalar (E : Capabilities Node Num) (n : Node) (s : string) (v : val Num)
    (h : (leaf_value E n s).result = .ok v) :
    (∃ r, v = .str r) ∨ (∃ r, v = .number r) ∨ (∃ r, v = .boolean r) := by
  unfold leaf_value at h
  obtain ⟨t, _, h⟩ := Outcome.andThen_result_ok h
  cases t with
  | T_NUMBER =>
    obtain ⟨r, _, hr⟩ := Outcome.andThen_result_ok h
    exact Or.inr (Or.inl ⟨r, by simpa [Outcome.ret] using hr.symm⟩)
  | T_STRING =>
    obtain ⟨r, _, hr⟩ := Outcome.andThen_result_ok h
    exact Or.inl ⟨r, by simpa [Outcome.ret] using hr.symm⟩
  | T_BOOLEAN =>
    obtain ⟨r, _, hr⟩ := Outcome.andThen_result_ok h
    exact Or.inr (Or.inr ⟨r, by simpa [Outcome.ret] using hr.symm⟩)

theorem walk_leaf_shaped (E : Capabilities Node Num) (doc : Node) (s : string)
    (output : val Num) (key : string) (out : val Num)
    (h : (walk E doc (.str s) output key).result = .ok out) :
    ∃ r, out = output.set key r ∧ shaped (.str s) r = true := by
  by_cases hs : s = []
  · subst hs
    exact ⟨.str [], by simpa [walk, Outcome.ret] using h.symm, rfl⟩
  · rw [walk_leaf_value E doc output key s hs] at h
    obtain ⟨v, hv, hset⟩ := Outcome.andThen_result_ok h
    refine ⟨v, by simpa [Outcome.ret] using hset.symm, ?_⟩
    rcases leaf_value_scalar E doc s v hv with ⟨r, rfl⟩ | ⟨r, rfl⟩ | ⟨r, rfl⟩ <;> rfl

mutual

theorem walk_shaped (E : Capabilities Node Num) :
    ∀ (t : Json) (doc : Node) (output : val Num) (key : string) (out : val Num),
      supported t = true → ordinary_keys t = true →
      (walk E doc t output key).result = .ok out →
      ∃ r, out = output.set key r ∧ shaped t r = true
  | .object members, doc, output, key, out, hsup, hord, h => by
    simp only [supported, Bool.and_eq_true, decide_eq_true_eq] at hsup
    simp only [ordinary_keys] at hord
    rw [walk_object, query_object] at h
    obtain ⟨r, hr, hset⟩ := Outcome.andThen_result_ok h
    obtain ⟨ps, hps, hshape⟩ := loop_shaped E members doc [] r hsup.2 hord hsup.1
      (fun _ _ hmem => by cases hmem) hr
    refine ⟨r, by simpa [Outcome.ret] using hset.symm, ?_⟩
    rw [hps]
    simpa [shaped] using hshape
  | .array elems, doc, output, key, out, _, _, h => by
    rw [walk_array] at h
    obtain ⟨r, hr, hset⟩ := Outcome.andThen_result_ok h
    obtain ⟨arr, harr⟩ := query_array_result_array E doc elems r hr
    refine ⟨r, by simpa [Outcome.ret] using hset.symm, ?_⟩
    rw [harr]
    rfl
  | .str s, doc, output, key, out, _, _, h => walk_leaf_shaped E doc s output key out h
  | .null, _, _, _, _, hsup, _, _ => by simp [supported] at hsup
  | .boolean _, _, _, _, _, hsup, _, _ => by simp [supported] at hsup
  | .number _, _, _, _, _, hsup, _, _ => by simp [supported] at hsup

theorem loop_shaped (E : Capabilities Node Num) :
    ∀ (members : List (string × Json)) (doc : Node) (props : List (string × val Num))
      (out : val Num),
      supported_members members = true → ordinary_keys_members members = true →
      (members.map Prod.fst).Nodup →
      (∀ k ∈ members.map Prod.fst, k ∉ props.map Prod.fst) →
      (query_object_loop E doc members (.object props)).result = .ok out →
      ∃ ps, out = .object (props ++ ps) ∧ shaped_members members ps = true
  | [], doc, props, out, _, _, _, _, h => by
    refine ⟨[], ?_, rfl⟩
    simpa [query_object_loop, Outcome.ret] using h.symm
  | (k, t) :: rest, doc, props, out, hsup, hord, hnodup, hfresh, h => by
    simp only [supported_members, Bool.and_eq_true] at hsup
    simp only [ordinary_keys_members, Bool.and_eq_true, decide_eq_true_eq,
      Option.isNone_iff_eq_none] at hord
    simp only [List.map_cons, List.nodup_cons] at hnodup
    simp only [query_object_loop, Outcome.bind_eq] at h
    obtain ⟨mid, hwalk, hrest⟩ := Outcome.andThen_result_ok h
    obtain ⟨r, hmid, hshape⟩ := walk_shaped E t doc (.object props) k mid hsup.1 hord.1.2 hwalk
    have hk : k ∉ props.map Prod.fst := hfresh k (List.mem_cons_self _ _)
    have hmid' : mid = .object (props ++ [(k, r)]) := by
      rw [hmid]
      exact val.set_object_fresh props k r hord.1.1.1 hord.1.1.2 hk
    rw [hmid'] at hrest
    have hfresh' : ∀ k' ∈ rest.map Prod.fst, k' ∉ (props ++ [(k, r)]).map Prod.fst := by
      intro k' hk' hmem
      simp only [List.map_append, List.map_cons, List.map_nil, List.mem_append,
        List.mem_singleton] at hmem
      rcases hmem with hmem | heq
      · exact hfresh k' (List.mem_cons_of_mem _ hk') hmem
      · exact hnodup.1 (heq ▸ hk')
    obtain ⟨ps, hout, hps⟩ := loop_shaped E rest doc (props ++ [(k, r)]) out hsup.2 hord.2
      hnodup.2 hfresh' hrest
    refine ⟨(k, r) :: ps, ?_, ?_⟩
    · rw [hout]
      simp
    · simp [shaped_members, hshape, hps]

end

/-! ## Lemmas for string items, by class -/

theorem leaf_value_number (E : Capabilities Node Num) (n : Node) (s : string) (x : Num)
    (h : get_return_type s = .ok .T_NUMBER) (hx : E.evaluate_number s n = some x) :
    leaf_value E n s = ⟨[.evaluate_number s n], .ok (.number x)⟩ := by
  simp [leaf_value, h, query_number, Json.get_string, xpath_number, hx, Outcome.ret]

theorem leaf_value_boolean (E : Capabilities Node Num) (n : Node) (s : string) (b : Bool)
    (h : get_return_type s = .ok .T_BOOLEAN) (hb : E.evaluate_boolean s n = some b) :
    leaf_value E n s = ⟨[.evaluate_boolean s n], .ok (.boolean b)⟩ := by
  simp [leaf_value, h, query_boolean, Json.get_string, xpath_boolean, hb, Outcome.ret]

theorem leaf_value_string_plain (E : Capabilities Node Num) (n : Node) (s r : string)
    (h : get_return_type s = .ok .T_STRING) (hf : '#' ∉ s)
    (hr : E.evaluate_string s n = some r) :
    leaf_value E n s = ⟨[.evaluate_string s n], .ok (.str r)⟩ := by
  have hfind : find s ['#'] = none := by
    cases hfind : find s ['#'] with
    | none => rfl
    | some i => exact absurd ((find_hash_isSome s).mp (by simp [hfind])) hf
  simp [leaf_value, h, query_string, Json.get_string, hfind, xpath_string, hr, Outcome.ret]

theorem leaf_value_string_hash (E : Capabilities Node Num) (n : Node) (s : string)
    (h : get_return_type s = .ok .T_STRING) (hf : '#' ∈ s) :
    leaf_value E n s = ⟨[], .ok (.str (s.drop 1))⟩ := by
  have hfind : (find s ['#']).isSome = true := (find_hash_isSome s).mpr hf
  cases s with
  | nil => simp [get_return_type] at h
  | cons ch t =>
    simp [leaf_value, h, query_string, Json.get_string, hfind, substr_one_cons, Outcome.ret,
      Outcome.lift]

theorem run_each_one_call {β : Type} (f : Node → Outcome Node β) (c : Node → Call Node)
    (g : Node → β) :
    ∀ nodes : List Node, (∀ n ∈ nodes, f n = ⟨[c n], .ok (g n)⟩) →
      run_each f nodes = ⟨nodes.map c, .ok (nodes.map g)⟩ := by
  intro nodes
  induction nodes with
  | nil => intro _; rfl
  | cons n rest ih =>
    intro h
    have hrest := ih (fun m hm => h m (List.mem_cons_of_mem _ hm))
    simp [run_each, h n (List.mem_cons_self _ _), hrest, Outcome.ret]

theorem run_each_no_call {β : Type} (f : Node → Outcome Node β) (g : Node → β) :
    ∀ nodes : List Node, (∀ n ∈ nodes, f n = ⟨[], .ok (g n)⟩) →
      run_each f nodes = ⟨[], .ok (nodes.map g)⟩ := by
  intro nodes
  induction nodes with
  | nil => intro _; rfl
  | cons n rest ih =>
    intro h
    have hrest := ih (fun m hm => h m (List.mem_cons_of_mem _ hm))
    simp [run_each, h n (List.mem_cons_self _ _), hrest, Outcome.ret]

theorem query_array_str_item_run (E : Capabilities Node Num) (doc : Node)
    (base_path s : string) (nodes : List Node) (calls : List (Call Node))
    (values : List (val Num)) (hnodes : E.evaluate_node_set base_path doc = some nodes)
    (hrun : run_each (fun n => leaf_value E n s) nodes = ⟨calls, .ok values⟩) :
    query_array E doc [.str base_path, .str s]
      = ⟨.evaluate_node_set base_path doc :: calls, .ok (.array values)⟩ := by
  rw [query_array_str_item_leaf]
  simp [Json.get_string, xpath_node_set_some E _ _ _ hnodes, hrun, Outcome.ret, Outcome.lift]

/-! ## The claims, continued -/

/-- C12: when the item template of an array form is neither an object nor a
string, `query_array` returns the empty sequence after the one node-set call,
however many nodes the base path matches, and raises no error. -/
theorem query_array_unsupported_item (E : Capabilities Node Num) (doc : Node)
    (base_path : string) (inner : Json) (nodes : List Node)
    (hobj : ∀ members, inner ≠ .object members) (hstr : ∀ path, inner ≠ .str path)
    (hnodes : E.evaluate_node_set base_path doc = some nodes) :
    query_array E doc [.str base_path, inner]
      = ⟨[.evaluate_node_set base_path doc], .ok (.array [])⟩ := by
  rw [query_array_other_item E doc _ inner [] hobj hstr]
  simp only [for_each_node_skip, Outcome.ret_andThen]
  simp [Json.get_string, xpath_node_set_some E _ _ _ hnodes, Outcome.ret, Outcome.lift]

/-- C12, on the sample document: `//item` matches two nodes and the nested
array `["//x","@id"]` as item template contributes nothing. -/
theorem query_array_unsupported_item_witness :
    sample.evaluate_node_set "//item".toList 0 = some [1, 2]
    ∧ query_array sample 0 [.str "//item".toList, .array [.str "//x".toList, .str "@id".toList]]
        = ⟨[.evaluate_node_set "//item".toList 0], .ok (.array [])⟩ :=
  ⟨rfl, query_array_unsupported_item sample 0 "//item".toList
    (.array [.str "//x".toList, .str "@id".toList]) [1, 2]
    (fun _ h => Json.noConfusion h) (fun _ h => Json.noConfusion h) rfl⟩

/-- C13: for a document that parses and a template whose top level is an
array, `transform` is exactly `query_array` at the document root on that array:
the same calls, and the same value or failure. -/
theorem transform_array_template (E : Capabilities Node Num) (xml json_template : string)
    (doc : Node) (elems : List Json) (hdoc : E.load_string xml = some doc)
    (htemplate : E.parse json_template = some (.array elems)) :
    transform E xml json_template = query_array E doc elems := by
  simp [transform, hdoc, htemplate]

/-- C13, on the sample document and the template `["//item","@id"]`: the
result is the array `["1","2"]` itself. -/
theorem transform_array_template_witness :
    transform sample_ids sample_xml ids_template_text
        = query_array sample_ids 0 [.str "//item".toList, .str "@id".toList]
    ∧ (transform sample_ids sample_xml ids_template_text).result
        = .ok (.array [.str "1".toList, .str "2".toList]) :=
  ⟨transform_array_template sample_ids sample_xml ids_template_text 0
    [.str "//item".toList, .str "@id".toList] rfl rfl, rfl⟩

/-- C16: for a document that parses and an object template with distinct
keys, the top-level loop of `transform` is exactly `query_object` at the
document root: the same calls in the same order, and the same value or
failure. -/
theorem transform_object_template (E : Capabilities Node Num) (xml json_template : string)
    (doc : Node) (members : List (string × Json)) (hdoc : E.load_string xml = some doc)
    (htemplate : E.parse json_template = some (.object members))
    (hkeys : (members.map Prod.fst).Nodup) :
    transform E xml json_template = query_object E doc members := by
  simp only [transform, hdoc, htemplate, Outcome.bind_eq, Outcome.lift_ok_andThen, query_object]
  exact transform_loop_eq_query_object_loop E doc members members _
    (members_find_of_nodup members hkeys)

/-- C16, on the sample document and the template
`{"items":["//item",{"name":"name()","id":"@id"}]}`. -/
theorem transform_object_template_witness :
    transform sample sample_xml items_template_text
      = query_object sample 0
          [("items".toList, .array [.str "//item".toList, .object item_members])] :=
  transform_object_template sample sample_xml items_template_text 0
    [("items".toList, .array [.str "//item".toList, .object item_members])] rfl rfl
    (by decide)

/-- C18: `walk` on a template that is a number, a boolean or null makes no
evaluator call, raises no error and returns the output as it was; an object
template whose only member is such a value gives the empty object. -/
theorem walk_unsupported_template (E : Capabilities Node Num) (doc : Node) (output : val Num)
    (key : string) (x : Rat) (b : Bool) :
    walk E doc (.number x) output key = ⟨[], .ok output⟩
    ∧ walk E doc (.boolean b) output key = ⟨[], .ok output⟩
    ∧ walk E doc .null output key = ⟨[], .ok output⟩
    ∧ query_object E doc [(key, .number x)] = ⟨[], .ok (.object [])⟩
    ∧ query_object E doc [(key, .boolean b)] = ⟨[], .ok (.object [])⟩
    ∧ query_object E doc [(key, .null)] = ⟨[], .ok (.object [])⟩ :=
  ⟨rfl, rfl, rfl, rfl, rfl, rfl⟩

/-- C17: on a non-empty leaf `s`, `walk` makes no evaluator call exactly when
`get_return_type(s)` is String and `s` holds a `#` at some position; the value
then stored is `s` without its first character; a String leaf without `#`, a
Number leaf and a Boolean leaf each make exactly one call, in their mode, on
`s` at the context, whether or not they hold a `#`. -/
theorem walk_skips_evaluator_iff (E : Capabilities Node Num) (doc : Node) (output : val Num)
    (key s : string) (hs : s ≠ []) :
    ((walk E doc (.str s) output key).calls = []
        ↔ (get_return_type s = .ok .T_STRING ∧ '#' ∈ s))
    ∧ (get_return_type s = .ok .T_STRING → '#' ∈ s →
        walk E doc (.str s) output key = ⟨[], .ok (output.set key (.str (s.drop 1)))⟩)
    ∧ (get_return_type s = .ok .T_STRING → '#' ∉ s →
        (walk E doc (.str s) output key).calls = [.evaluate_string s doc])
    ∧ (get_return_type s = .ok .T_NUMBER →
        (walk E doc (.str s) output key).calls = [.evaluate_number s doc])
    ∧ (get_return_type s = .ok .T_BOOLEAN →
        (walk E doc (.str s) output key).calls = [.evaluate_boolean s doc]) := by
  have hstr_hash : get_return_type s = .ok .T_STRING → '#' ∈ s →
      walk E doc (.str s) output key = ⟨[], .ok (output.set key (.str (s.drop 1)))⟩ :=
    fun ht hmem => walk_leaf_string_hash E doc output key s ht ((find_hash_isSome s).mpr hmem)
  have hstr_plain : get_return_type s = .ok .T_STRING → '#' ∉ s →
      (walk E doc (.str s) output key).calls = [.evaluate_string s doc] := by
    intro ht hmem
    have hf : find s ['#'] = none := by
      cases hfind : find s ['#'] with
      | none => rfl
      | some i => exact absurd ((find_hash_isSome s).mp (by simp [hfind])) hmem
    rw [walk_leaf_string_plain E doc output key s ht hf]
    exact xpath_string_andThen_ret_calls E s doc _
  have hnum : get_return_type s = .ok .T_NUMBER →
      (walk E doc (.str s) output key).calls = [.evaluate_number s doc] := by
    intro ht
    rw [walk_leaf_number E doc output key s ht]
    exact xpath_number_andThen_ret_calls E s doc _
  have hbool : get_return_type s = .ok .T_BOOLEAN →
      (walk E doc (.str s) output key).calls = [.evaluate_boolean s doc] := by
    intro ht
    rw [walk_leaf_boolean E doc output key s ht]
    exact xpath_boolean_andThen_ret_calls E s doc _
  refine ⟨?_, hstr_hash, hstr_plain, hnum, hbool⟩
  cases s with
  | nil => exact absurd rfl hs
  | cons ch t =>
    have hrt := get_return_type_cons ch t
    cases hc : classify_by_table (ch :: t) <;> rw [hc] at hrt
    · simp [hnum hrt, hrt]
    · by_cases hmem : '#' ∈ ch :: t
      · simp [hstr_hash hrt hmem, hrt, hmem]
      · simp [hstr_plain hrt hmem, hrt, hmem]
    · simp [hbool hrt, hrt]

/-- C17, on the leaves `a#b` and `count(#)`: the first is stored as `#b`
without a call, the second is sent to the evaluator as a number. -/
theorem walk_skips_evaluator_iff_witness :
    walk sample 0 (.str "a#b".toList) (.object []) "k".toList
        = ⟨[], .ok (.object [("k".toList, .str "#b".toList)])⟩
    ∧ (walk sample 0 (.str "count(#)".toList) (.object []) "k".toList).calls
        = [.evaluate_number "count(#)".toList 0] :=
  ⟨(walk_skips_evaluator_iff sample 0 (.object []) "k".toList "a#b".toList (by decide)).2.1
      rfl (by decide),
    (walk_skips_evaluator_iff sample 0 (.object []) "k".toList "count(#)".toList
      (by decide)).2.2.2.1 rfl⟩

/-- C14: what `query_array` returns for an array form whose item template is
a non-empty string `s`, once the base path has matched `nodes`. A Number,
Boolean or `#`-free String leaf gives, node by node and in order, the
evaluator's result in that mode, one call per node. A String leaf holding `#`
anywhere gives `s` without its first character at every node, with no call:
the literal for a leaf that starts with `#`, but also for a path such as
`//a[.='#']`, which is never evaluated. -/
theorem query_array_string_item_rule (E : Capabilities Node Num) (doc : Node)
    (base_path s : string) (nodes : List Node)
    (hnodes : E.evaluate_node_set base_path doc = some nodes) :
    (get_return_type s = .ok .T_STRING → '#' ∈ s →
      query_array E doc [.str base_path, .str s]
        = ⟨[.evaluate_node_set base_path doc],
           .ok (.array (nodes.map fun _ => .str (s.drop 1)))⟩)
    ∧ (get_return_type s = .ok .T_STRING → '#' ∉ s →
      ∀ g : Node → string, (∀ n ∈ nodes, E.evaluate_string s n = some (g n)) →
      query_array E doc [.str base_path, .str s]
        = ⟨.evaluate_node_set base_path doc :: nodes.map (fun n => .evaluate_string s n),
           .ok (.array (nodes.map fun n => .str (g n)))⟩)
    ∧ (get_return_type s = .ok .T_NUMBER →
      ∀ g : Node → Num, (∀ n ∈ nodes, E.evaluate_number s n = some (g n)) →
      query_array E doc [.str base_path, .str s]
        = ⟨.evaluate_node_set base_path doc :: nodes.map (fun n => .evaluate_number s n),
           .ok (.array (nodes.map fun n => .number (g n)))⟩)
    ∧ (get_return_type s = .ok .T_BOOLEAN →
      ∀ g : Node → Bool, (∀ n ∈ nodes, E.evaluate_boolean s n = some (g n)) →
      query_array E doc [.str base_path, .str s]
        = ⟨.evaluate_node_set base_path doc :: nodes.map (fun n => .evaluate_boolean s n),
           .ok (.array (nodes.map fun n => .boolean (g n)))⟩) := by
  refine ⟨?_, ?_, ?_, ?_⟩
  · intro ht hmem
    have hrun := run_each_no_call (fun n => leaf_value E n s) (fun _ => val.str (s.drop 1))
      nodes (fun n _ => leaf_value_string_hash E n s ht hmem)
    exact query_array_str_item_run E doc base_path s nodes _ _ hnodes hrun
  · intro ht hmem g hg
    have hrun := run_each_one_call (fun n => leaf_value E n s)
      (fun n => Call.evaluate_string s n) (fun n => val.str (g n)) nodes
      (fun n hn => leaf_value_string_plain E n s (g n) ht hmem (hg n hn))
    exact query_array_str_item_run E doc base_path s nodes _ _ hnodes hrun
  · intro ht g hg
    have hrun := run_each_one_call (fun n => leaf_value E n s)
      (fun n => Call.evaluate_number s n) (fun n => val.number (g n)) nodes
      (fun n hn => leaf_value_number E n s (g n) ht (hg n hn))
    exact query_array_str_item_run E doc base_path s nodes _ _ hnodes hrun
  · intro ht g hg
    have hrun := run_each_one_call (fun n => leaf_value E n s)
      (fun n => Call.evaluate_boolean s n) (fun n => val.boolean (g n)) nodes
      (fun n hn => leaf_value_boolean E n s (g n) ht (hg n hn))
    exact query_array_str_item_run E doc base_path s nodes _ _ hnodes hrun

/-- C14, on the sample document: the item `//a[.='#']` at the two matched
items gives `/a[.='#']` twice and is never evaluated, while the item `@id`
gives the evaluator's `"1"` and `"2"`. -/
theorem query_array_string_item_rule_witness :
    sample.evaluate_node_set "//item".toList 0 = some [1, 2]
    ∧ query_array sample 0 [.str "//item".toList, .str "//a[.='#']".toList]
      = ⟨[.evaluate_node_set "//item".toList 0],
         .ok (.array [.str "/a[.='#']".toList, .str "/a[.='#']".toList])⟩
    ∧ query_array sample 0 [.str "//item".toList, .str "@id".toList]
      = ⟨[.evaluate_node_set "//item".toList 0,
          .evaluate_string "@id".toList 1, .evaluate_string "@id".toList 2],
         .ok (.array [.str "1".toList, .str "2".toList])⟩ :=
  ⟨rfl,
    (query_array_string_item_rule sample 0 "//item".toList "//a[.='#']".toList [1, 2] rfl).1
      rfl (by decide),
    (query_array_string_item_rule sample 0 "//item".toList "@id".toList [1, 2] rfl).2.1
      rfl (by decide) (fun n => if n = 1 then "1".toList else "2".toList)
      (by
        intro n hn
        simp only [List.mem_cons, List.mem_singleton, List.not_mem_nil, or_false] at hn
        rcases hn with rfl | rfl <;> rfl)⟩

/-- C15, as stated, fails at the key `__proto__`: walking the leaf `@id` into
`{"a":"x"}` at that key evaluates the path and then writes no entry, and
walking an object template there replaces the prototype and writes no entry
either. -/
theorem walk_proto_key_writes_nothing :
    walk sample 1 (.str "@id".toList) (.object [("a".toList, .str "x".toList)]) proto_key
      = ⟨[.evaluate_string "@id".toList 1], .ok (.object [("a".toList, .str "x".toList)])⟩
    ∧ ¬ (∃ out r, (walk sample 1 (.str "@id".toList)
            (.object [("a".toList, .str "x".toList)]) proto_key).result = .ok out
          ∧ out.get proto_key = some r)
    ∧ (walk sample 1 (.object item_members) (.object [("a".toList, .str "x".toList)])
        proto_key).result
      = .ok (.object_with_prototype
          (.object [("name".toList, .str "item".toList), ("id".toList, .str "1".toList)])
          [("a".toList, .str "x".toList)]) := by
  refine ⟨rfl, ?_, rfl⟩
  rintro ⟨out, r, hout, hget⟩
  have h : (walk sample 1 (.str "@id".toList) (.object [("a".toList, .str "x".toList)])
      proto_key).result = .ok (.object [("a".toList, .str "x".toList)]) := rfl
  rw [h] at hout
  cases hout
  simp [val.get, val.props, get_property, proto_key] at hget

/-- C15, amended: when `walk` on an object, an array or a string leaf returns,
at a key other than `__proto__`, the output is the old object with `key` set to
one value: `key` holds that value, every other key holds what it held before,
and the other entries are the same, in the same order. -/
theorem walk_writes_one_entry (E : Capabilities Node Num) (doc : Node) (n : Json)
    (o : val Num) (key : string) (out : val Num)
    (htemplate : (∃ elems, n = .array elems) ∨ (∃ members, n = .object members)
      ∨ (∃ s, n = .str s))
    (ho : o.is_object = true) (hkey : key ≠ proto_key)
    (h : (walk E doc n o key).result = .ok out) :
    ∃ r, out = o.set key r
      ∧ out.get key = some r
      ∧ (∀ other, other ≠ key → out.get other = o.get other)
      ∧ out.props.filter (fun e => decide (e.1 ≠ key))
          = o.props.filter (fun e => decide (e.1 ≠ key)) := by
  obtain ⟨r, hr⟩ := walk_result_set E doc n o key out htemplate h
  subst hr
  exact ⟨r, rfl, val.get_set_self o key r ho hkey,
    fun other hne => val.get_set_ne o key other r hne, val.props_set_filter_ne o key r⟩

/-- C15, amended, on the sample document: walking the leaf `@id` at the first
item into `{"7":"s","a":"x","k":"old","z":"y"}` changes the value at `k` only,
and at the new key `3` it adds one entry, listed first, and leaves the others
as they were. -/
theorem walk_writes_one_entry_witness :
    (walk sample 1 (.str "@id".toList)
        (.object [("7".toList, .str "s".toList), ("a".toList, .str "x".toList),
          ("k".toList, .str "old".toList), ("z".toList, .str "y".toList)]) "k".toList).result
      = .ok (.object [("7".toList, .str "s".toList), ("a".toList, .str "x".toList),
          ("k".toList, .str "1".toList), ("z".toList, .str "y".toList)])
    ∧ (walk sample 1 (.str "@id".toList)
        (.object [("7".toList, .str "s".toList), ("a".toList, .str "x".toList),
          ("k".toList, .str "old".toList), ("z".toList, .str "y".toList)]) "3".toList).result
      = .ok (.object [("3".toList, .str "1".toList), ("7".toList, .str "s".toList),
          ("a".toList, .str "x".toList), ("k".toList, .str "old".toList),
          ("z".toList, .str "y".toList)])
    ∧ ∃ r : val Int,
        (val.object [("7".toList, .str "s".toList), ("a".toList, .str "x".toList),
            ("k".toList, .str "1".toList), ("z".toList, .str "y".toList)] : val Int)
          = (val.object [("7".toList, .str "s".toList), ("a".toList, .str "x".toList),
              ("k".toList, .str "old".toList), ("z".toList, .str "y".toList)]).set
              "k".toList r :=
  ⟨rfl, rfl,
    (walk_writes_one_entry sample 1 (.str "@id".toList)
      (.object [("7".toList, .str "s".toList), ("a".toList, .str "x".toList),
        ("k".toList, .str "old".toList), ("z".toList, .str "y".toList)]) "k".toList _
      (Or.inr (Or.inr ⟨_, rfl⟩)) rfl (by decide) rfl).imp fun _ hr => hr.1⟩

end Camaro
